import Mathlib

/-!
# SpeakMCP — Agent Session Orchestration Engine: verification development

Shallow embedding of the orchestration code of the SpeakMCP main process
(`processQueuedMessages`, `stopAgentSession`, the `executeToolCall` wrapper,
`processWithAgentMode`, `createMcpTextInput`, `retryQueuedMessage`) together
with the per-conversation message-queue, session-registry and tool-approval
services those functions call.

The queue / session / approval services themselves (message-queue-service,
agent-session-tracker, tool-approval manager) are not part of the available
sources; only their callers are.  Their operations are therefore modelled
from the specification (sections 4.1 - 4.3), as marked on each definition.
The orchestration functions listed above are translated directly from the
source file.

Concurrency model: the Electron main process is single threaded; other tasks
can interleave with the drain loop only at its `await` points.  The embedding
is coarser (and therefore sound for the universally quantified theorems
below): an environment may inject queue-management commands between the
loop's atomic steps, and supplies the results of all external calls
(conversation store, panel visibility, session registry, the agent run).
-/

namespace SpeakMCP

/-- Status of a queued message.  `processed` messages are removed from the
queue, so only these three statuses appear on retained messages
(spec section 3, `QueuedMessage`). -/
inductive MsgStatus where
  | pending
  | processing
  | failed
deriving DecidableEq, Repr

/-- A queued message (spec section 3): id, text, status, the
`addedToHistory` idempotency flag and the last error recorded by
`markFailed`. -/
structure QueuedMessage where
  id : Nat
  text : String
  status : MsgStatus
  addedToHistory : Bool
  lastError : Option String
deriving DecidableEq, Repr

/-- Per-conversation queue state: the FIFO list, the paused flag, the
processing-lock token, and the conversation's message history (the part of
the conversation store the drain loop writes through
`addMessageToConversation`).  `nextId` is the id counter used by `enqueue`;
fresh messages receive fresh ids. -/
structure ConvState where
  queue : List QueuedMessage
  paused : Bool
  locked : Bool
  history : List String
  nextId : Nat
deriving DecidableEq, Repr

/-- Modelled from the spec (section 4.2 `enqueue`): append a fresh pending
message with a fresh id to the conversation's FIFO list. -/
def enqueue (text : String) (s : ConvState) : QueuedMessage × ConvState :=
  let m : QueuedMessage := ⟨s.nextId, text, .pending, false, none⟩
  (m, { s with queue := s.queue ++ [m], nextId := s.nextId + 1 })

/-- Modelled from the spec (sections 4.2, 4.5 and 7): `peek` is
non-destructive and yields the next pending message; a failed (or
in-flight) message at the head of the queue blocks draining until a human
retries or removes it, so `peek` yields the head of the queue only when the
head is still pending. -/
def peek (s : ConvState) : Option QueuedMessage :=
  match s.queue with
  | [] => none
  | m :: _ => if m.status = .pending then some m else none

/-- Modelled from the spec (section 4.2 `markProcessing`): transition the
message pending → processing; return `false` (caller must re-peek) when the
message vanished or changed — i.e. when no message with this id is still
pending. -/
def markProcessing (i : Nat) (s : ConvState) : Bool × ConvState :=
  if s.queue.any (fun m => m.id == i && m.status == .pending) then
    (true,
      { s with queue := s.queue.map (fun m =>
          if m.id = i then { m with status := .processing } else m) })
  else
    (false, s)

/-- Modelled from the spec (section 4.2 `markProcessed`): remove the
message from the queue. -/
def markProcessed (i : Nat) (s : ConvState) : ConvState :=
  { s with queue := s.queue.filter (fun m => m.id ≠ i) }

/-- Modelled from the spec (section 4.2 `markFailed`): retain the message
with failed status and the error recorded in `lastError`. -/
def markFailed (i : Nat) (err : String) (s : ConvState) : ConvState :=
  { s with queue := s.queue.map (fun m =>
      if m.id = i then { m with status := .failed, lastError := some err } else m) }

/-- Modelled from the spec (section 4.2 `markAddedToHistory`): set the
idempotency flag guarding duplicate history insertion. -/
def markAddedToHistory (i : Nat) (s : ConvState) : ConvState :=
  { s with queue := s.queue.map (fun m =>
      if m.id = i then { m with addedToHistory := true } else m) }

/-- Modelled from the spec (section 4.2 `resetToPending`): clear a failed
message's status back to pending without touching its text; `false` when
there is no failed message with this id. -/
def resetToPending (i : Nat) (s : ConvState) : Bool × ConvState :=
  if s.queue.any (fun m => m.id == i && m.status == .failed) then
    (true,
      { s with queue := s.queue.map (fun m =>
          if m.id = i then { m with status := .pending } else m) })
  else
    (false, s)

/-- Modelled from the spec (section 4.2 `pause`). -/
def pauseQueue (s : ConvState) : ConvState := { s with paused := true }

/-- Modelled from the spec (section 4.2 `resume`). -/
def resumeQueue (s : ConvState) : ConvState := { s with paused := false }

/-- Modelled from the spec (section 4.2 `tryAcquireLock`): a compare-and-set
flag, not a blocking lock — "already processing" is a normal non-blocking
signal. -/
def tryAcquireProcessingLock (s : ConvState) : Bool × ConvState :=
  if s.locked then (false, s) else (true, { s with locked := true })

/-- Modelled from the spec (section 4.2 `releaseLock`). -/
def releaseProcessingLock (s : ConvState) : ConvState := { s with locked := false }

/-- A queue-management command an external trigger may issue concurrently
with the drain loop (spec section 6, queue management: enqueue, remove,
reorder, pause, resume, retryFailed).  Modelled from the spec. -/
inductive QueueCmd where
  | enqueueCmd (text : String)
  | removeCmd (id : Nat)
  | resetCmd (id : Nat)
  | reorderCmd (ids : List Nat)
  | pauseCmd
  | resumeCmd
deriving DecidableEq, Repr

/-- Apply one external queue-management command to the conversation state. -/
def applyCmd (c : QueueCmd) (s : ConvState) : ConvState :=
  match c with
  | .enqueueCmd text => (enqueue text s).2
  | .removeCmd i => { s with queue := s.queue.filter (fun m => m.id ≠ i) }
  | .resetCmd i => (resetToPending i s).2
  | .reorderCmd ids =>
      { s with queue :=
          ids.filterMap (fun i => s.queue.find? (fun m => m.id == i)) ++
          s.queue.filter (fun m => !(ids.contains m.id)) }
  | .pauseCmd => pauseQueue s
  | .resumeCmd => resumeQueue s

/-- Apply a batch of external commands in order. -/
def applyCmds (cs : List QueueCmd) (s : ConvState) : ConvState :=
  cs.foldl (fun s c => applyCmd c s) s

/-- Trace events recording what the drain coordinator did, in order. -/
inductive DrainEvent where
  /-- the top-of-loop pause check, with the observed value -/
  | checkedPaused (paused : Bool)
  /-- the non-destructive peek, with its result -/
  | peeked (m : Option QueuedMessage)
  /-- `markProcessing` on the peeked message id, with its result -/
  | markedProcessing (id : Nat) (ok : Bool)
  /-- the message text was appended to the conversation history -/
  | historyAdd (id : Nat) (text : String)
  /-- the `addedToHistory` idempotency flag was set -/
  | markedAddedToHistory (id : Nat)
  /-- an existing session bound to the conversation was revived;
  records the panel visibility observed and the snoozed flag passed -/
  | revived (sessionId : Nat) (panelVisible : Bool) (snoozed : Bool)
  /-- the unit of work (`processWithAgentMode`) ran for the message;
  records panel visibility, the snoozed flag passed, and success -/
  | ranWork (id : Nat) (panelVisible : Bool) (snoozed : Bool) (ok : Bool)
  /-- `markProcessed` removed the message after success -/
  | markedProcessed (id : Nat)
  /-- `markFailed` retained the message with the error -/
  | markedFailed (id : Nat) (err : String)
  /-- an exception escaped the loop outside the per-message try/catch -/
  | crashed (msg : String)
deriving DecidableEq, Repr

/-- Environment of one drain-loop iteration: external interleavings and the
results of the external calls the iteration performs.  `crash` injects an
exception at a point not covered by the per-message try/catch. -/
structure IterEnv where
  crash : Option String
  afterPeek : List QueueCmd
  addResult : Except String Bool
  afterAdd : List QueueCmd
  panelVisible : Bool
  foundSession : Option Nat
  reviveOk : Bool
  workResult : Except String String
  afterWork : List QueueCmd
deriving Repr

/-- A benign iteration environment: no interference, every external call
succeeds, the panel is visible. -/
def IterEnv.quiet : IterEnv :=
  ⟨none, [], .ok true, [], true, none, false, .ok "done", []⟩

/-- The snooze decision of the drain loop, from the source: start snoozed
exactly when the panel window is not currently visible. -/
def shouldStartSnoozed (panelVisible : Bool) : Bool := !panelVisible

/-- Result of the per-message unit of work. -/
structure WorkResult where
  evs : List DrainEvent
  state : ConvState
  err : Option String
deriving Repr

/-- The trace events of the session-revival step of the unit of work: when
a session bound to the conversation is found and its revival succeeds, it
is revived with the snooze flag derived from panel visibility. -/
def reviveEvs (e : IterEnv) : List DrainEvent :=
  match e.foundSession with
  | some fid =>
      if e.reviveOk then
        [.revived fid e.panelVisible (shouldStartSnoozed e.panelVisible)]
      else []
  | none => []

/-- The tail of the unit of work after the history step: revive the
conversation's session if found, then run `processWithAgentMode` with the
snooze flag derived from panel visibility. -/
def runWorkTail (e : IterEnv) (m : QueuedMessage) (evs : List DrainEvent)
    (s1 : ConvState) : WorkResult :=
  match e.workResult with
  | .ok _ =>
      WorkResult.mk
        (evs ++ reviveEvs e ++
          [.ranWork m.id e.panelVisible (shouldStartSnoozed e.panelVisible) true])
        s1 none
  | .error err =>
      WorkResult.mk
        (evs ++ reviveEvs e ++
          [.ranWork m.id e.panelVisible (shouldStartSnoozed e.panelVisible) false])
        s1 (some err)

/-- The per-message unit of work of the drain loop, translated from the
body of the inner `try` of `processQueuedMessages`: add the message text to
the conversation history unless `addedToHistory` is already set (a falsy
add result raises "Failed to add message to conversation history"), set the
idempotency flag, determine the snooze flag from panel visibility, revive
the conversation's existing session if one is found, and run
`processWithAgentMode`.  `err = some e` means the corresponding exception
reached the surrounding catch. -/
def runWork (e : IterEnv) (m : QueuedMessage) (s : ConvState) : WorkResult :=
  if m.addedToHistory then
    runWorkTail e m [] s
  else
    match e.addResult with
    | .error err => WorkResult.mk [] s (some err)
    | .ok false => WorkResult.mk [] s (some "Failed to add message to conversation history")
    | .ok true =>
        runWorkTail e m [.historyAdd m.id m.text, .markedAddedToHistory m.id]
          (markAddedToHistory m.id
            (applyCmds e.afterAdd { s with history := s.history ++ [m.text] }))

/-- Outcome of a drain run: final conversation state, the event trace, the
exception (if one escaped the loop), and whether the modelling fuel ran
out. -/
structure DrainOutcome where
  state : ConvState
  trace : List DrainEvent
  err : Option String
  fuelOut : Bool
deriving Repr

/-- The drain loop of `processQueuedMessages`, translated from the source:
repeat { stop if paused; peek, stop if none; markProcessing, on failure
continue with the next iteration; run the unit of work; markProcessed on
success, markFailed and break on error }.  The environment supplies each
iteration's external results; `fuel` bounds the number of iterations
modelled (the loop itself has no intrinsic bound because external
interference can make `markProcessing` fail repeatedly). -/
def drainLoop (env : Nat → IterEnv) : Nat → Nat → ConvState → DrainOutcome
  | 0, _, s => DrainOutcome.mk s [] none true
  | fuel + 1, k, s =>
    match (env k).crash with
    | some msg => DrainOutcome.mk s [.crashed msg] (some msg) false
    | none =>
      if s.paused then DrainOutcome.mk s [.checkedPaused true] none false
      else
        match peek s with
        | none => DrainOutcome.mk s [.checkedPaused false, .peeked none] none false
        | some m =>
          let s1 := applyCmds (env k).afterPeek s
          match markProcessing m.id s1 with
          | (false, s2) =>
            let r := drainLoop env fuel (k + 1) s2
            DrainOutcome.mk r.state
              (.checkedPaused false :: .peeked (some m) ::
                .markedProcessing m.id false :: r.trace)
              r.err r.fuelOut
          | (true, s2) =>
            let w := runWork (env k) m s2
            match w.err with
            | none =>
              let s4 := markProcessed m.id (applyCmds (env k).afterWork w.state)
              let r := drainLoop env fuel (k + 1) s4
              DrainOutcome.mk r.state
                (.checkedPaused false :: .peeked (some m) ::
                  .markedProcessing m.id true ::
                  (w.evs ++ .markedProcessed m.id :: r.trace))
                r.err r.fuelOut
            | some err =>
              let s4 := markFailed m.id err (applyCmds (env k).afterWork w.state)
              DrainOutcome.mk s4
                (.checkedPaused false :: .peeked (some m) ::
                  .markedProcessing m.id true ::
                  (w.evs ++ [.markedFailed m.id err]))
                none false

/-- `processQueuedMessages`, translated from the source: try to acquire the
per-conversation processing lock and return immediately if another
processor is running; otherwise run the drain loop, and always release the
lock when done (the source's `finally`), whether the loop ended normally or
by exception. -/
def processQueuedMessages (env : Nat → IterEnv) (fuel : Nat) (s : ConvState) :
    DrainOutcome :=
  match tryAcquireProcessingLock s with
  | (false, s1) => DrainOutcome.mk s1 [] none false
  | (true, s1) =>
    let r := drainLoop env fuel 0 s1
    DrainOutcome.mk (releaseProcessingLock r.state) r.trace r.err r.fuelOut

/-! ## Session registry, approval broker and the session-level operations -/

/-- Session status (spec section 3, `Session`). -/
inductive SessionStatus where
  | active
  | snoozed
  | stopped
  | completed
  | errored
deriving DecidableEq, Repr

/-- An agent session record: id, the conversation it is bound to (once
known), and its status. -/
structure AgentSession where
  id : Nat
  conversationId : Option Nat
  status : SessionStatus
deriving DecidableEq, Repr

/-- An approval request of the tool-approval broker: id, owning session,
tool name, and its resolution (`none` while outstanding; resolved exactly
once). -/
structure Approval where
  id : Nat
  sessionId : Nat
  toolName : String
  resolution : Option Bool
deriving DecidableEq, Repr

/-- Modelled from the spec (section 4.1 `findByConversationId`): the
tracker returns the (first) session bound to the conversation, if any. -/
def findSessionByConversationId (cid : Nat) (sessions : List AgentSession) :
    Option AgentSession :=
  sessions.find? (fun s => s.conversationId == some cid)

/-- Modelled from the spec (section 4.1, tracker lookup by session id). -/
def getSession (sid : Nat) (sessions : List AgentSession) : Option AgentSession :=
  sessions.find? (fun s => s.id == sid)

/-- Modelled from the spec (section 4.1 `revive`): `false` if the id is
unknown; otherwise the session becomes active again (snoozed when the
`snoozed` flag is set), preserving its id. -/
def reviveSession (sid : Nat) (snoozed : Bool) (sessions : List AgentSession) :
    Bool × List AgentSession :=
  if sessions.any (fun s => s.id == sid) then
    (true, sessions.map (fun s =>
      if s.id = sid then
        { s with status := if snoozed then .snoozed else .active }
      else s))
  else
    (false, sessions)

/-- Modelled from the spec (section 4.1 `start`): create a session with a
fresh id bound to the conversation; it starts snoozed when requested,
active otherwise. -/
def startSession (conversationId : Option Nat) (startSnoozed : Bool)
    (sessions : List AgentSession) (nextSid : Nat) : Nat × List AgentSession × Nat :=
  (nextSid,
   sessions ++ [⟨nextSid, conversationId, if startSnoozed then .snoozed else .active⟩],
   nextSid + 1)

/-- Modelled from the spec (section 4.1): mark the session with the given
terminal status. -/
def setSessionStatus (sid : Nat) (st : SessionStatus) (sessions : List AgentSession) :
    List AgentSession :=
  sessions.map (fun s => if s.id = sid then { s with status := st } else s)

/-- Modelled from the spec (section 4.3 `cancelSessionApprovals`): resolve
every outstanding approval of the session as denied; approvals already
resolved are left untouched (resolution happens exactly once). -/
def cancelSessionApprovals (sid : Nat) (approvals : List Approval) : List Approval :=
  approvals.map (fun a =>
    if a.sessionId = sid ∧ a.resolution = none then
      { a with resolution := some false }
    else a)

/-- The application state touched by `stopAgentSession`: the session
registry, the approval broker's table, the state-manager stop flags, and
the per-conversation queues. -/
structure AppState where
  sessions : List AgentSession
  approvals : List Approval
  stopFlags : List Nat
  queues : Nat → ConvState

/-- `stopAgentSession`, translated from the source: flag the session to
stop in the state manager, cancel its pending tool approvals, pause its
conversation's message queue when the session is bound to a conversation,
emit the final progress snapshot, and mark the session stopped in the
tracker. -/
def stopAgentSession (sid : Nat) (st : AppState) : AppState :=
  let st1 := { st with stopFlags := sid :: st.stopFlags }
  let st2 := { st1 with approvals := cancelSessionApprovals sid st1.approvals }
  let st3 :=
    match getSession sid st2.sessions with
    | some s =>
      match s.conversationId with
      | some c =>
          { st2 with queues := fun c' => if c' = c then pauseQueue (st2.queues c') else st2.queues c' }
      | none => st2
    | none => st2
  { st3 with sessions := setSessionStatus sid .stopped st3.sessions }

/-! ## The tool-execution wrapper with inline approval -/

/-- One item of an MCP tool result's content list. -/
structure ContentItem where
  type : String
  text : String
deriving DecidableEq, Repr

/-- An MCP tool result: content plus the error tag. -/
structure MCPToolResult where
  content : List ContentItem
  isError : Bool
deriving DecidableEq, Repr

/-- Outcome of the `executeToolCall` wrapper: the value returned (or the
exception propagated from the external executor), and whether the external
executor was invoked. -/
structure ToolCallOutcome where
  result : Except String MCPToolResult
  executorInvoked : Bool
deriving Repr

/-- The `executeToolCall` wrapper defined inside `processWithAgentMode`,
translated from the source: when approval is required by configuration,
request it and await the user's response; a denial returns an error-tagged
tool result (text "Tool call denied by user: <toolName>") without invoking
the external executor; otherwise (approval granted or not required) the
external executor is invoked and its result — or its exception —
propagates. -/
def executeToolCall (requireApproval : Bool) (toolName : String)
    (approvalResponse : Bool) (executorResult : Except String MCPToolResult) :
    ToolCallOutcome :=
  if requireApproval then
    if approvalResponse then
      ToolCallOutcome.mk executorResult true
    else
      ToolCallOutcome.mk
        (.ok (MCPToolResult.mk
          [ContentItem.mk "text" ("Tool call denied by user: " ++ toolName)] true))
        false
  else
    ToolCallOutcome.mk executorResult true

/-- Modelled from the spec (sections 4.4 and 7, not in the available
sources): the orchestration loop (`processTranscriptWithAgentMode`) appends
each returned tool result — error-tagged or not — to the transcript and
continues with its next iteration; only a propagated exception aborts the
run. -/
def loopStepAfterTool (transcript : List MCPToolResult)
    (r : Except String MCPToolResult) : Except String (List MCPToolResult) :=
  match r with
  | .ok res => .ok (transcript ++ [res])
  | .error e => .error e

/-! ## `processWithAgentMode` -/

/-- A progress snapshot as published by `emitAgentProgress`: the session it
belongs to, the completion flag, the (first step's) description and the
final content. -/
structure ProgressSnapshot where
  sessionId : Nat
  isComplete : Bool
  description : String
  finalContent : Option String
deriving DecidableEq, Repr

/-- Environment of one `processWithAgentMode` run: how many in-progress
snapshots MCP initialization emitted, and the combined outcome of the
awaited external work (`mcpService.initialize` and
`processTranscriptWithAgentMode`) — `.error` is any exception thrown by
them. -/
structure AgentModeEnv where
  initEmitCount : Nat
  agentOutcome : Except String String
deriving Repr

/-- Result of a `processWithAgentMode` run: the value returned or the
exception re-thrown, the updated session registry, and the snapshots the
function itself emitted (initialization progress and, on failure, the final
error snapshot; the agent loop's own emissions are external to this
function). -/
structure AgentModeResult where
  result : Except String String
  sessions : List AgentSession
  nextSid : Nat
  emitted : List ProgressSnapshot
  sessionId : Nat
deriving Repr

/-- `processWithAgentMode`, translated from the source: reuse the existing
session if one is given, otherwise start a fresh one (snoozed when
requested); on success mark the session completed and return the agent's
content; on any exception mark the session errored, emit exactly one final
snapshot (`isComplete := true`) describing the failure, and re-throw. -/
def processWithAgentMode (conversationId : Option Nat)
    (existingSessionId : Option Nat) (startSnoozed : Bool) (env : AgentModeEnv)
    (sessions : List AgentSession) (nextSid : Nat) : AgentModeResult :=
  let (sid, sessions1, nextSid1) :=
    match existingSessionId with
    | some s => (s, sessions, nextSid)
    | none => startSession conversationId startSnoozed sessions nextSid
  let initSnaps : List ProgressSnapshot :=
    List.replicate env.initEmitCount (ProgressSnapshot.mk sid false "Initializing MCP tools" none)
  match env.agentOutcome with
  | .ok content =>
      AgentModeResult.mk (.ok content) (setSessionStatus sid .completed sessions1)
        nextSid1 initSnaps sid
  | .error msg =>
      AgentModeResult.mk (.error msg) (setSessionStatus sid .errored sessions1)
        nextSid1
        (initSnaps ++
          [ProgressSnapshot.mk sid true msg (some ("Error: " ++ msg))])
        sid

/-! ## `createMcpTextInput` and `retryQueuedMessage` -/

/-- State touched by `createMcpTextInput`: the session registry, the
per-conversation queues (whose `history` component is the conversation
store), and the id counter used when a fresh conversation is created. -/
structure McpState where
  sessions : List AgentSession
  queues : Nat → ConvState
  nextConvId : Nat

/-- A fire-and-forget agent run launched by `createMcpTextInput`: the
arguments it passes to `processWithAgentMode`. -/
structure RunStart where
  text : String
  conversationId : Nat
  existingSessionId : Option Nat
  startSnoozed : Bool
deriving DecidableEq, Repr

/-- Result of a `createMcpTextInput` call: what was returned to the caller,
the run that was started (if any), and the updated state. -/
structure TextInputOutcome where
  conversationId : Nat
  queued : Bool
  queuedMessageId : Option Nat
  run : Option RunStart
  state : McpState

/-- The non-queueing tail of `createMcpTextInput`: add the user message to
the existing conversation, try to revive the conversation's existing
session (passing `fromTile` as the snoozed flag) and launch the
fire-and-forget `processWithAgentMode` run. -/
def startRunForExistingConversation (text : String) (cid : Nat) (fromTile : Bool)
    (st : McpState) : TextInputOutcome :=
  let q1 := { st.queues cid with history := (st.queues cid).history ++ [text] }
  let (existingSessionId, sessions1) :=
    match findSessionByConversationId cid st.sessions with
    | some found =>
        match reviveSession found.id fromTile st.sessions with
        | (true, ss) => (some found.id, ss)
        | (false, ss) => (none, ss)
    | none => (none, st.sessions)
  TextInputOutcome.mk cid false none
    (some (RunStart.mk text cid existingSessionId fromTile))
    (McpState.mk sessions1 (fun c => if c = cid then q1 else st.queues c) st.nextConvId)

/-- `createMcpTextInput`, translated from the source.  With no conversation
id a fresh conversation is created (its store seeded with the text) and a
run is started.  With a conversation id: when message queuing is enabled
(`mcpMessageQueueEnabled` is not `false`) and the conversation's session
found by `findSessionByConversationId` has status active, the text is
enqueued and the call returns a queued indicator with the queued message id
— no run is started; in every other case the text is added to the
conversation and a fire-and-forget run is started. -/
def createMcpTextInput (text : String) (conversationId : Option Nat)
    (fromTile : Option Bool) (mcpMessageQueueEnabled : Option Bool)
    (st : McpState) : TextInputOutcome :=
  match conversationId with
  | none =>
    let cid := st.nextConvId
    let q1 := { st.queues cid with history := (st.queues cid).history ++ [text] }
    let st1 := McpState.mk st.sessions (fun c => if c = cid then q1 else st.queues c)
      (st.nextConvId + 1)
    TextInputOutcome.mk cid false none
      (some (RunStart.mk text cid none (fromTile.getD false))) st1
  | some cid =>
    if mcpMessageQueueEnabled ≠ some false then
      match findSessionByConversationId cid st.sessions with
      | some s =>
        if s.status = .active then
          let (m, q1) := enqueue text (st.queues cid)
          TextInputOutcome.mk cid true (some m.id) none
            (McpState.mk st.sessions (fun c => if c = cid then q1 else st.queues c)
              st.nextConvId)
        else
          startRunForExistingConversation text cid (fromTile.getD false) st
      | none => startRunForExistingConversation text cid (fromTile.getD false) st
    else
      startRunForExistingConversation text cid (fromTile.getD false) st

/-- Result of `retryQueuedMessage`: the boolean returned to the caller, the
updated queue, and whether a drain (`processQueuedMessages`) was triggered
because the conversation was idle. -/
structure RetryOutcome where
  returned : Bool
  queue : ConvState
  drainTriggered : Bool

/-- `retryQueuedMessage`, translated from the source: reset the failed
message to pending without modifying its text (return `false` if that
fails); when the conversation has an active session the queue will be
drained when it completes, otherwise a drain is triggered immediately. -/
def retryQueuedMessage (cid : Nat) (messageId : Nat) (sessions : List AgentSession)
    (q : ConvState) : RetryOutcome :=
  match resetToPending messageId q with
  | (false, q1) => RetryOutcome.mk false q1 false
  | (true, q1) =>
    match findSessionByConversationId cid sessions with
    | some s =>
      if s.status = .active then RetryOutcome.mk true q1 false
      else RetryOutcome.mk true q1 true
    | none => RetryOutcome.mk true q1 true

/-! ## Event classification and basic trace lemmas -/

/-- Events of the unit-of-work phase of one drain iteration. -/
def isWorkEvent : DrainEvent → Bool
  | .historyAdd _ _ => true
  | .markedAddedToHistory _ => true
  | .revived _ _ _ => true
  | .ranWork _ _ _ _ => true
  | _ => false

/-- Events witnessing that the drain touched or processed a queued message
(anything beyond the pause check, an empty peek, or a crash). -/
def isProcessingEvent : DrainEvent → Bool
  | .checkedPaused _ => false
  | .peeked _ => false
  | .crashed _ => false
  | _ => true

/-- Predicate for a history insertion of the message with id `i`. -/
def isHistoryAddFor (i : Nat) : DrainEvent → Bool
  | .historyAdd j _ => j == i
  | _ => false

/-- Number of history insertions of the message with id `i` in a trace. -/
def countHistoryAdd (i : Nat) : List DrainEvent → Nat
  | [] => 0
  | ev :: t => (if isHistoryAddFor i ev then 1 else 0) + countHistoryAdd i t

lemma countHistoryAdd_append (i : Nat) (t1 t2 : List DrainEvent) :
    countHistoryAdd i (t1 ++ t2) = countHistoryAdd i t1 + countHistoryAdd i t2 := by
  induction t1 with
  | nil => simp [countHistoryAdd]
  | cons ev t ih => simp [countHistoryAdd, ih, Nat.add_assoc]

lemma reviveEvs_work (e : IterEnv) : ∀ ev ∈ reviveEvs e, isWorkEvent ev = true := by
  intro ev hev
  unfold reviveEvs at hev
  rcases hfs : e.foundSession with _ | fid <;> rw [hfs] at hev
  · simp at hev
  · rcases hr : e.reviveOk <;> rw [hr] at hev <;> simp at hev
    subst hev; rfl

lemma runWorkTail_evs_work (e : IterEnv) (m : QueuedMessage) (evs : List DrainEvent)
    (s1 : ConvState) (h : ∀ ev ∈ evs, isWorkEvent ev = true) :
    ∀ ev ∈ (runWorkTail e m evs s1).evs, isWorkEvent ev = true := by
  intro ev hev
  unfold runWorkTail at hev
  rcases hw : e.workResult with err | c <;> rw [hw] at hev <;>
    simp only [List.mem_append, List.mem_singleton] at hev <;>
    rcases hev with (hev | hev) | hev
  · exact h ev hev
  · exact reviveEvs_work e ev hev
  · subst hev; rfl
  · exact h ev hev
  · exact reviveEvs_work e ev hev
  · subst hev; rfl

lemma runWork_evs_work (e : IterEnv) (m : QueuedMessage) (s : ConvState) :
    ∀ ev ∈ (runWork e m s).evs, isWorkEvent ev = true := by
  intro ev hev
  unfold runWork at hev
  rcases hfl : m.addedToHistory <;> rw [hfl] at hev <;> simp only [Bool.false_eq_true,
    if_false, if_true] at hev
  · rcases hadd : e.addResult with err | b <;> rw [hadd] at hev
    · simp at hev
    · rcases b
      · simp at hev
      · refine runWorkTail_evs_work e m _ _ ?_ ev hev
        intro ev2 hev2
        simp only [List.mem_cons, List.not_mem_nil] at hev2
        rcases hev2 with h2 | h2 | h2
        · subst h2; rfl
        · subst h2; rfl
        · exact absurd h2 (by simp)
  · exact runWorkTail_evs_work e m [] s (by intro ev2 h2; simp at h2) ev hev

/-! ## C3 — approval denial is an error result, not an exception -/

/-- C3: when the user denies a required approval, `executeToolCall` returns
an error-tagged tool result (`isError` true, text
"Tool call denied by user: <toolName>") instead of
throwing, the external executor is not invoked, and the orchestration loop
appends the denial to the transcript and continues; when approval is
granted or not required, the external executor is invoked and its result
(or exception) propagates. -/
theorem executeToolCall_denial_is_error_result (toolName : String)
    (executorResult : Except String MCPToolResult) (transcript : List MCPToolResult) :
    (executeToolCall true toolName false executorResult).executorInvoked = false ∧
    (executeToolCall true toolName false executorResult).result =
      .ok (MCPToolResult.mk
        [ContentItem.mk "text" ("Tool call denied by user: " ++ toolName)] true) ∧
    loopStepAfterTool transcript (executeToolCall true toolName false executorResult).result =
      .ok (transcript ++
        [MCPToolResult.mk
          [ContentItem.mk "text" ("Tool call denied by user: " ++ toolName)] true]) ∧
    (executeToolCall true toolName true executorResult).result = executorResult ∧
    (executeToolCall true toolName true executorResult).executorInvoked = true ∧
    (∀ b : Bool, (executeToolCall false toolName b executorResult).result = executorResult ∧
      (executeToolCall false toolName b executorResult).executorInvoked = true) := by
  refine ⟨rfl, rfl, rfl, rfl, rfl, fun b => ⟨rfl, rfl⟩⟩

/-! ## C4 — lock discipline of the drain coordinator -/

/-- C4: when the processing lock cannot be acquired, `processQueuedMessages`
returns immediately with the state untouched and an empty trace; when the
lock is acquired, the lock is released on every exit path — normal
termination, exhausted modelling fuel, or an exception escaping the loop
(any environment, including crashing ones). -/
theorem processQueuedMessages_lock_discipline (env : Nat → IterEnv) (fuel : Nat)
    (s : ConvState) :
    (s.locked = true →
        processQueuedMessages env fuel s = DrainOutcome.mk s [] none false) ∧
    (s.locked = false →
        (processQueuedMessages env fuel s).state.locked = false) := by
  constructor
  · intro h
    simp [processQueuedMessages, tryAcquireProcessingLock, h]
  · intro h
    simp [processQueuedMessages, tryAcquireProcessingLock, h, releaseProcessingLock]

/-- Witness for C4 at a concrete state: an already-locked queue is returned
untouched, and from an unlocked queue the lock is free again afterwards. -/
theorem processQueuedMessages_lock_discipline_witness :
    (processQueuedMessages (fun _ => IterEnv.quiet) 3
        (ConvState.mk [] false true [] 0) =
      DrainOutcome.mk (ConvState.mk [] false true [] 0) [] none false) ∧
    (processQueuedMessages (fun _ => IterEnv.quiet) 3
        (ConvState.mk [QueuedMessage.mk 0 "hi" .pending false none] false false [] 1)).state.locked
      = false := by
  exact ⟨(processQueuedMessages_lock_discipline (fun _ => IterEnv.quiet) 3
      (ConvState.mk [] false true [] 0)).1 rfl,
    (processQueuedMessages_lock_discipline (fun _ => IterEnv.quiet) 3
      (ConvState.mk [QueuedMessage.mk 0 "hi" .pending false none] false false [] 1)).2 rfl⟩

/-! ## C7 — terminal behavior of `processWithAgentMode` -/

lemma filter_replicate_not {α : Type} (n : Nat) (a : α) (p : α → Bool)
    (h : p a = false) : (List.replicate n a).filter p = [] := by
  induction n with
  | zero => rfl
  | succ n ih => simp [List.replicate_succ, List.filter_cons, h, ih]

lemma setSessionStatus_mem (sid : Nat) (st : SessionStatus)
    (sessions : List AgentSession) (s : AgentSession) (hs : s ∈ sessions)
    (hid : s.id = sid) :
    { s with status := st } ∈ setSessionStatus sid st sessions := by
  unfold setSessionStatus
  have hmem := List.mem_map_of_mem
    (fun s => if s.id = sid then { s with status := st } else s) hs
  simpa [hid] using hmem

/-- C7: a run of `processWithAgentMode` that ends in an exception marks the
session errored, emits exactly one snapshot with `isComplete` true — whose
description is the error message and whose final content is
"Error: <message>" — and re-throws the error to the caller; a successful
run marks the session completed and emits no completion snapshot of its
own. -/
lemma status_mem_fresh (conversationId : Option Nat) (startSnoozed : Bool)
    (sessions : List AgentSession) (nextSid : Nat) (st : SessionStatus) :
    ∃ s ∈ setSessionStatus nextSid st
        (sessions ++ [AgentSession.mk nextSid conversationId
          (if startSnoozed then .snoozed else .active)]),
      s.id = nextSid ∧ s.status = st := by
  refine ⟨AgentSession.mk nextSid conversationId st, ?_, rfl, rfl⟩
  have hmem : AgentSession.mk nextSid conversationId
      (if startSnoozed then .snoozed else .active) ∈
      sessions ++ [AgentSession.mk nextSid conversationId
        (if startSnoozed then .snoozed else .active)] := by simp
  have h2 := setSessionStatus_mem nextSid st _ _ hmem rfl
  simpa using h2

lemma status_mem_existing (sid0 : Nat) (sessions : List AgentSession)
    (s0 : AgentSession) (hs0 : s0 ∈ sessions) (hid : s0.id = sid0)
    (st : SessionStatus) :
    ∃ s ∈ setSessionStatus sid0 st sessions, s.id = sid0 ∧ s.status = st :=
  ⟨{ s0 with status := st }, setSessionStatus_mem sid0 st sessions s0 hs0 hid, hid, rfl⟩

theorem processWithAgentMode_terminal_behavior (conversationId : Option Nat)
    (existingSessionId : Option Nat) (startSnoozed : Bool) (env : AgentModeEnv)
    (sessions : List AgentSession) (nextSid : Nat) (r : AgentModeResult)
    (hex : ∀ sid0, existingSessionId = some sid0 → ∃ s ∈ sessions, s.id = sid0)
    (hr : r = processWithAgentMode conversationId existingSessionId startSnoozed env
      sessions nextSid) :
    (∀ msg, env.agentOutcome = .error msg →
        r.result = .error msg ∧
        (∃ s ∈ r.sessions, s.id = r.sessionId ∧ s.status = .errored) ∧
        (r.emitted.filter (fun p => p.isComplete)).length = 1 ∧
        ProgressSnapshot.mk r.sessionId true msg (some ("Error: " ++ msg)) ∈ r.emitted) ∧
    (∀ content, env.agentOutcome = .ok content →
        r.result = .ok content ∧
        (∃ s ∈ r.sessions, s.id = r.sessionId ∧ s.status = .completed) ∧
        (r.emitted.filter (fun p => p.isComplete)).length = 0) := by
  have hfilter : ∀ (sid : Nat),
      (List.replicate env.initEmitCount
        (ProgressSnapshot.mk sid false "Initializing MCP tools" none)).filter
          (fun p => p.isComplete) = [] :=
    fun sid => filter_replicate_not _ _ _ rfl
  constructor
  · intro msg hmsg
    subst hr
    rcases hexist : existingSessionId with _ | sid0
    · simp only [processWithAgentMode, hexist, hmsg, startSession]
      refine ⟨by trivial, ?_, ?_, ?_⟩
      · exact status_mem_fresh conversationId startSnoozed sessions nextSid .errored
      · simp [List.filter_append, hfilter]
      · simp
    · obtain ⟨s0, hs0, hid0⟩ := hex sid0 hexist
      simp only [processWithAgentMode, hexist, hmsg]
      refine ⟨by trivial, ?_, ?_, ?_⟩
      · exact status_mem_existing sid0 sessions s0 hs0 hid0 .errored
      · simp [List.filter_append, hfilter]
      · simp
  · intro content hcontent
    subst hr
    rcases hexist : existingSessionId with _ | sid0
    · simp only [processWithAgentMode, hexist, hcontent, startSession]
      refine ⟨by trivial, ?_, ?_⟩
      · exact status_mem_fresh conversationId startSnoozed sessions nextSid .completed
      · simp [hfilter]
    · obtain ⟨s0, hs0, hid0⟩ := hex sid0 hexist
      simp only [processWithAgentMode, hexist, hcontent]
      refine ⟨by trivial, ?_, ?_⟩
      · exact status_mem_existing sid0 sessions s0 hs0 hid0 .completed
      · simp [hfilter]

/-- Witness for C7 at a concrete failing run: the error is re-thrown and
exactly one completion snapshot is emitted. -/
theorem processWithAgentMode_terminal_behavior_witness :
    (processWithAgentMode (some 1) none false (AgentModeEnv.mk 2 (.error "boom")) [] 0).result
      = .error "boom" ∧
    ((processWithAgentMode (some 1) none false
        (AgentModeEnv.mk 2 (.error "boom")) [] 0).emitted.filter
          (fun p => p.isComplete)).length = 1 := by
  have h := processWithAgentMode_terminal_behavior (some 1) none false
    (AgentModeEnv.mk 2 (.error "boom")) [] 0 _ (by intro sid0 h0; cases h0) rfl
  have h2 := h.1 "boom" rfl
  exact ⟨h2.1, h2.2.2.1⟩

/-! ## C2 — stopping a session denies its approvals and pauses its queue -/

/-- C2: `stopAgentSession` resolves every outstanding approval of the
session as denied (leaving no approval of the session outstanding), and
when the session is bound to a conversation it pauses that conversation's
queue; a paused queue is never drained — `processQueuedMessages` leaves the
queue untouched, keeps it paused, and performs no processing step — while
`resumeQueue` is the operation that clears the paused flag. -/
theorem stopAgentSession_denies_and_pauses (st : AppState) (sid : Nat)
    (env : Nat → IterEnv) (fuel : Nat) :
    (∀ a ∈ st.approvals, a.sessionId = sid → a.resolution = none →
        { a with resolution := some false } ∈ (stopAgentSession sid st).approvals) ∧
    (∀ a ∈ (stopAgentSession sid st).approvals, a.sessionId = sid →
        a.resolution ≠ none) ∧
    (∀ s, getSession sid st.sessions = some s → ∀ c, s.conversationId = some c →
        ((stopAgentSession sid st).queues c).paused = true) ∧
    (∀ q : ConvState, q.paused = true →
        (processQueuedMessages env fuel q).state.queue = q.queue ∧
        (processQueuedMessages env fuel q).state.paused = true ∧
        (∀ ev ∈ (processQueuedMessages env fuel q).trace,
          isProcessingEvent ev = false)) ∧
    (∀ q : ConvState, (resumeQueue q).paused = false) := by
  have happ : (stopAgentSession sid st).approvals =
      cancelSessionApprovals sid st.approvals := by
    simp only [stopAgentSession]
    rcases hgs : getSession sid st.sessions with _ | s
    · rfl
    · rcases hcid : s.conversationId with _ | c <;> simp [hcid]
  refine ⟨?_, ?_, ?_, ?_, fun q => rfl⟩
  · intro a ha hsid hres
    rw [happ]
    unfold cancelSessionApprovals
    have hmem := List.mem_map_of_mem
      (fun a : Approval =>
        if a.sessionId = sid ∧ a.resolution = none then
          { a with resolution := some false } else a) ha
    simpa [hsid, hres] using hmem
  · intro a ha hsid
    rw [happ] at ha
    unfold cancelSessionApprovals at ha
    obtain ⟨a0, ha0, hfa⟩ := List.mem_map.mp ha
    by_cases hc : a0.sessionId = sid ∧ a0.resolution = none
    · rw [if_pos hc] at hfa
      rw [← hfa]
      simp
    · rw [if_neg hc] at hfa
      subst hfa
      intro hnone
      exact hc ⟨hsid, hnone⟩
  · intro s hs c hc
    unfold stopAgentSession
    simp only [getSession] at hs ⊢
    simp [hs, hc, pauseQueue]
  · intro q hq
    rcases hlk : q.locked
    · cases fuel with
      | zero =>
        simp [processQueuedMessages, tryAcquireProcessingLock, hlk, drainLoop,
          releaseProcessingLock, hq]
      | succ fuel =>
        rcases hcr : (env 0).crash with _ | msg <;>
          simp [processQueuedMessages, tryAcquireProcessingLock, hlk, drainLoop,
            hcr, hq, releaseProcessingLock, isProcessingEvent]
    · simp [processQueuedMessages, tryAcquireProcessingLock, hlk, hq]

/-- Witness for C2 at a concrete state: the pending approval of session 7
is resolved as denied, conversation 3's queue is paused afterwards, and a
drain attempt on a paused queue leaves the queued message in place. -/
theorem stopAgentSession_denies_and_pauses_witness :
    Approval.mk 0 7 "shell" (some false) ∈
      (stopAgentSession 7
        (AppState.mk [AgentSession.mk 7 (some 3) .active]
          [Approval.mk 0 7 "shell" none] []
          (fun _ => ConvState.mk [] false false [] 0))).approvals ∧
    ((stopAgentSession 7
        (AppState.mk [AgentSession.mk 7 (some 3) .active]
          [Approval.mk 0 7 "shell" none] []
          (fun _ => ConvState.mk [] false false [] 0))).queues 3).paused = true ∧
    (processQueuedMessages (fun _ => IterEnv.quiet) 3
        (ConvState.mk [QueuedMessage.mk 0 "hi" .pending false none]
          true false [] 1)).state.queue =
      [QueuedMessage.mk 0 "hi" .pending false none] := by
  have h := stopAgentSession_denies_and_pauses
    (AppState.mk [AgentSession.mk 7 (some 3) .active]
      [Approval.mk 0 7 "shell" none] []
      (fun _ => ConvState.mk [] false false [] 0)) 7
    (fun _ => IterEnv.quiet) 3
  refine ⟨?_, ?_, ?_⟩
  · have := h.1 (Approval.mk 0 7 "shell" none) (by simp) rfl rfl
    simpa using this
  · exact h.2.2.1 (AgentSession.mk 7 (some 3) .active) rfl 3 rfl
  · exact (h.2.2.2.1
      (ConvState.mk [QueuedMessage.mk 0 "hi" .pending false none] true false [] 1)
      rfl).1

/-! ## C8 / C9 — enqueue-instead-of-start and its configuration gate -/

lemma startRunForExistingConversation_spec (text : String) (cid : Nat)
    (fromTile : Bool) (st : McpState) :
    (startRunForExistingConversation text cid fromTile st).queued = false ∧
    (startRunForExistingConversation text cid fromTile st).conversationId = cid ∧
    ((startRunForExistingConversation text cid fromTile st).state.queues cid).history =
      (st.queues cid).history ++ [text] ∧
    ((startRunForExistingConversation text cid fromTile st).state.queues cid).queue =
      (st.queues cid).queue ∧
    ∃ esid, (startRunForExistingConversation text cid fromTile st).run =
      some (RunStart.mk text cid esid fromTile) := by
  unfold startRunForExistingConversation
  rcases hf : findSessionByConversationId cid st.sessions with _ | s
  · simp
  · rcases hr : reviveSession s.id fromTile st.sessions with ⟨ok, ss⟩
    rcases ok <;> simp [hr]

/-- C8 counterexample: with message queuing disabled in configuration
(`mcpMessageQueueEnabled = false`), a new message for conversation 5 —
which has an active session — is not enqueued: the call reports
`queued = false`, the conversation queue stays empty, and a second
fire-and-forget run is started for that conversation.  The claim as stated
(unconditional enqueue whenever an active session exists) is therefore
false on the code. -/
theorem createMcpTextInput_counterexample_queueDisabled :
    (findSessionByConversationId 5
        [AgentSession.mk 0 (some 5) .active]).map (fun s => s.status) =
      some .active ∧
    (createMcpTextInput "hi" (some 5) none (some false)
        (McpState.mk [AgentSession.mk 0 (some 5) .active]
          (fun _ => ConvState.mk [] false false [] 0) 6)).queued = false ∧
    (createMcpTextInput "hi" (some 5) none (some false)
        (McpState.mk [AgentSession.mk 0 (some 5) .active]
          (fun _ => ConvState.mk [] false false [] 0) 6)).run =
      some (RunStart.mk "hi" 5 (some 0) false) ∧
    ((createMcpTextInput "hi" (some 5) none (some false)
        (McpState.mk [AgentSession.mk 0 (some 5) .active]
          (fun _ => ConvState.mk [] false false [] 0) 6)).state.queues 5).queue = [] := by
  refine ⟨rfl, rfl, rfl, rfl⟩

/-- C8 (amended): for every new message arriving for a conversation whose
session is active, provided message queuing is enabled in configuration
(`mcpMessageQueueEnabled` is not `false`), the message is enqueued into the
conversation's queue, the call returns the queued indicator with the queued
message id, and no second orchestration run is started. -/
theorem createMcpTextInput_enqueues_for_active_session (text : String) (cid : Nat)
    (fromTile : Option Bool) (cfg : Option Bool) (st : McpState) (s : AgentSession)
    (hcfg : cfg ≠ some false)
    (hfind : findSessionByConversationId cid st.sessions = some s)
    (hactive : s.status = .active) :
    (createMcpTextInput text (some cid) fromTile cfg st).queued = true ∧
    (createMcpTextInput text (some cid) fromTile cfg st).queuedMessageId =
      some (st.queues cid).nextId ∧
    (createMcpTextInput text (some cid) fromTile cfg st).run = none ∧
    ((createMcpTextInput text (some cid) fromTile cfg st).state.queues cid).queue =
      (st.queues cid).queue ++
        [QueuedMessage.mk (st.queues cid).nextId text .pending false none] := by
  simp [createMcpTextInput, hcfg, hfind, hactive, enqueue]

/-- Witness for the amended C8: with queuing enabled (configuration unset)
and an active session for conversation 5, the message is queued and no run
is started. -/
theorem createMcpTextInput_enqueues_for_active_session_witness :
    (createMcpTextInput "hi" (some 5) none none
        (McpState.mk [AgentSession.mk 0 (some 5) .active]
          (fun _ => ConvState.mk [] false false [] 0) 6)).queued = true ∧
    (createMcpTextInput "hi" (some 5) none none
        (McpState.mk [AgentSession.mk 0 (some 5) .active]
          (fun _ => ConvState.mk [] false false [] 0) 6)).run = none := by
  have h := createMcpTextInput_enqueues_for_active_session "hi" 5 none none
    (McpState.mk [AgentSession.mk 0 (some 5) .active]
      (fun _ => ConvState.mk [] false false [] 0) 6)
    (AgentSession.mk 0 (some 5) .active) (by simp) rfl rfl
  exact ⟨h.1, h.2.2.1⟩

/-- C9: for a message addressed to an existing conversation, the call
enqueues exactly when queuing is enabled (`mcpMessageQueueEnabled` not
`false`) and the session found by `findSessionByConversationId` is active;
in every other case (queuing disabled, no session found, or session not
active) the text is appended directly to the conversation and a
fire-and-forget run is started immediately. -/
theorem createMcpTextInput_queueing_gate (text : String) (cid : Nat)
    (fromTile : Option Bool) (cfg : Option Bool) (st : McpState) :
    ((createMcpTextInput text (some cid) fromTile cfg st).queued = true ↔
      (cfg ≠ some false ∧
        ∃ s, findSessionByConversationId cid st.sessions = some s ∧
          s.status = .active)) ∧
    ((createMcpTextInput text (some cid) fromTile cfg st).queued = false →
      ((createMcpTextInput text (some cid) fromTile cfg st).state.queues cid).history =
        (st.queues cid).history ++ [text] ∧
      ((createMcpTextInput text (some cid) fromTile cfg st).state.queues cid).queue =
        (st.queues cid).queue ∧
      ∃ esid, (createMcpTextInput text (some cid) fromTile cfg st).run =
        some (RunStart.mk text cid esid (fromTile.getD false))) := by
  by_cases hcfg : cfg = some false
  · have hrun := startRunForExistingConversation_spec text cid (fromTile.getD false) st
    constructor
    · simp [createMcpTextInput, hcfg, hrun.1]
    · intro _
      simp only [createMcpTextInput, hcfg, ne_eq, not_true_eq_false, if_false]
      exact ⟨hrun.2.2.1, hrun.2.2.2.1, hrun.2.2.2.2⟩
  · rcases hf : findSessionByConversationId cid st.sessions with _ | s
    · have hrun := startRunForExistingConversation_spec text cid (fromTile.getD false) st
      constructor
      · simp [createMcpTextInput, hcfg, hf, hrun.1]
      · intro _
        simp only [createMcpTextInput, hcfg, ne_eq, not_false_eq_true, if_true, hf]
        exact ⟨hrun.2.2.1, hrun.2.2.2.1, hrun.2.2.2.2⟩
    · by_cases hact : s.status = .active
      · constructor
        · simp only [createMcpTextInput, hcfg, ne_eq, not_false_eq_true, if_true, hf,
            hact, if_pos]
          simp only [true_iff]
          exact ⟨trivial, s, rfl, hact⟩
        · intro hq
          exfalso
          simp [createMcpTextInput, hcfg, hf, hact] at hq
      · have hrun := startRunForExistingConversation_spec text cid (fromTile.getD false) st
        constructor
        · constructor
          · intro hq
            exfalso
            simp [createMcpTextInput, hcfg, hf, hact, hrun.1] at hq
          · rintro ⟨-, s2, hs2, hact2⟩
            cases hs2
            exact absurd hact2 hact
        · intro _
          simp only [createMcpTextInput, hcfg, ne_eq, not_false_eq_true, if_true, hf,
            hact, if_neg, if_false]
          exact ⟨hrun.2.2.1, hrun.2.2.2.1, hrun.2.2.2.2⟩

/-- Witness for C9 at concrete inputs: a conversation without a session is
not queued and gets a run started, with the text appended to its history. -/
theorem createMcpTextInput_queueing_gate_witness :
    ((createMcpTextInput "hey" (some 2) none none
        (McpState.mk [] (fun _ => ConvState.mk [] false false [] 0) 3)).state.queues 2).history
      = ["hey"] ∧
    (∃ esid, (createMcpTextInput "hey" (some 2) none none
        (McpState.mk [] (fun _ => ConvState.mk [] false false [] 0) 3)).run =
      some (RunStart.mk "hey" 2 esid false)) := by
  have h := createMcpTextInput_queueing_gate "hey" 2 none none
    (McpState.mk [] (fun _ => ConvState.mk [] false false [] 0) 3)
  have h2 := h.2 rfl
  exact ⟨h2.1, h2.2.2⟩

/-! ## C10 — snooze decision is panel visibility, and nothing else -/

/-- An event is snooze-consistent when any session start or revival it
records used the snooze flag derived from the panel visibility observed at
that moment (`shouldStartSnoozed`). -/
def snoozeConsistent : DrainEvent → Prop
  | .ranWork _ pv sn _ => sn = shouldStartSnoozed pv
  | .revived _ pv sn => sn = shouldStartSnoozed pv
  | _ => True

lemma reviveEvs_snoozeConsistent (e : IterEnv) :
    ∀ ev ∈ reviveEvs e, snoozeConsistent ev := by
  intro ev hev
  unfold reviveEvs at hev
  rcases hfs : e.foundSession with _ | fid <;> rw [hfs] at hev
  · simp at hev
  · rcases hr : e.reviveOk <;> rw [hr] at hev
    · simp at hev
    · simp at hev
      subst hev
      rfl

lemma runWorkTail_snoozeConsistent (e : IterEnv) (m : QueuedMessage)
    (evs : List DrainEvent) (s1 : ConvState)
    (h : ∀ ev ∈ evs, snoozeConsistent ev) :
    ∀ ev ∈ (runWorkTail e m evs s1).evs, snoozeConsistent ev := by
  intro ev hev
  unfold runWorkTail at hev
  rcases hw : e.workResult with err | c <;> rw [hw] at hev <;>
    simp only [List.mem_append, List.mem_singleton] at hev <;>
    rcases hev with (hev | hev) | hev
  · exact h ev hev
  · exact reviveEvs_snoozeConsistent e ev hev
  · subst hev; rfl
  · exact h ev hev
  · exact reviveEvs_snoozeConsistent e ev hev
  · subst hev; rfl

lemma runWork_snoozeConsistent (e : IterEnv) (m : QueuedMessage) (s : ConvState) :
    ∀ ev ∈ (runWork e m s).evs, snoozeConsistent ev := by
  intro ev hev
  unfold runWork at hev
  rcases hfl : m.addedToHistory <;> rw [hfl] at hev <;>
    simp only [Bool.false_eq_true, if_false, if_true] at hev
  · rcases hadd : e.addResult with err | b <;> rw [hadd] at hev
    · simp at hev
    · rcases b
      · simp at hev
      · refine runWorkTail_snoozeConsistent e m _ _ ?_ ev hev
        intro ev2 hev2
        simp only [List.mem_cons, List.not_mem_nil] at hev2
        rcases hev2 with h2 | h2 | h2
        · subst h2; trivial
        · subst h2; trivial
        · exact absurd h2 (by simp)
  · exact runWorkTail_snoozeConsistent e m [] s (by intro ev2 h2; simp at h2) ev hev

lemma drainLoop_snoozeConsistent (env : Nat → IterEnv) :
    ∀ fuel k s, ∀ ev ∈ (drainLoop env fuel k s).trace, snoozeConsistent ev := by
  intro fuel
  induction fuel with
  | zero => intro k s ev hev; simp [drainLoop] at hev
  | succ fuel ih =>
    intro k s ev hev
    rw [drainLoop] at hev
    split at hev
    · simp at hev
      subst hev; trivial
    · split at hev
      · simp at hev
        subst hev; trivial
      · split at hev
        · simp at hev
          rcases hev with h1 | h1 <;> subst h1 <;> trivial
        · dsimp only [] at hev
          split at hev
          · simp only [List.mem_cons] at hev
            rcases hev with h1 | h1 | h1 | h1
            · subst h1; trivial
            · subst h1; trivial
            · subst h1; trivial
            · exact ih (k + 1) _ ev h1
          · split at hev
            · simp only [List.mem_cons, List.mem_append] at hev
              rcases hev with h1 | h1 | h1 | h1 | h1 | h1
              · subst h1; trivial
              · subst h1; trivial
              · subst h1; trivial
              · exact runWork_snoozeConsistent (env k) _ _ ev h1
              · subst h1; trivial
              · exact ih (k + 1) _ ev h1
            · simp only [List.mem_cons, List.mem_append,
                List.not_mem_nil, or_false] at hev
              rcases hev with h1 | h1 | h1 | h1 | h1
              · subst h1; trivial
              · subst h1; trivial
              · subst h1; trivial
              · exact runWork_snoozeConsistent (env k) _ _ ev h1
              · subst h1; trivial

/-- C10: during a drain, every session revival and every unit of work
recorded in the trace used the snooze flag determined solely by panel
visibility at that moment: snoozed exactly when the panel was not visible
(`shouldStartSnoozed`). -/
theorem drain_snooze_from_panel_visibility (env : Nat → IterEnv) (fuel : Nat)
    (s : ConvState) :
    ∀ ev ∈ (processQueuedMessages env fuel s).trace, snoozeConsistent ev := by
  intro ev hev
  unfold processQueuedMessages at hev
  rcases hlk : tryAcquireProcessingLock s with ⟨ok, s1⟩
  rw [hlk] at hev
  rcases ok
  · simp at hev
  · exact drainLoop_snoozeConsistent env fuel 0 s1 ev hev

/-- Witness for C10 on a concrete drain with a hidden panel: the recorded
unit of work ran snoozed. -/
theorem drain_snooze_from_panel_visibility_witness :
    snoozeConsistent (DrainEvent.ranWork 0 false true true) := by
  exact drain_snooze_from_panel_visibility
    (fun _ => IterEnv.mk none [] (.ok true) [] false (some 4) true (.ok "done") []) 2
    (ConvState.mk [QueuedMessage.mk 0 "hi" .pending false none] false false [] 1)
    (DrainEvent.ranWork 0 false true true) (by decide)

/-! ## C1 — the drain loop follows the processing protocol -/

/-- Exhaustive case analysis of one unfolding of the drain loop, used by
the trace-invariant inductions below. -/
lemma drainLoop_succ_cases (env : Nat → IterEnv) (fuel k : Nat) (s : ConvState) :
    (∃ msg, (env k).crash = some msg ∧
        drainLoop env (fuel + 1) k s =
          DrainOutcome.mk s [.crashed msg] (some msg) false) ∨
    ((env k).crash = none ∧ s.paused = true ∧
        drainLoop env (fuel + 1) k s =
          DrainOutcome.mk s [.checkedPaused true] none false) ∨
    ((env k).crash = none ∧ s.paused = false ∧ peek s = none ∧
        drainLoop env (fuel + 1) k s =
          DrainOutcome.mk s [.checkedPaused false, .peeked none] none false) ∨
    (∃ m s2, (env k).crash = none ∧ s.paused = false ∧ peek s = some m ∧
        markProcessing m.id (applyCmds (env k).afterPeek s) = (false, s2) ∧
        drainLoop env (fuel + 1) k s =
          DrainOutcome.mk (drainLoop env fuel (k + 1) s2).state
            (.checkedPaused false :: .peeked (some m) ::
              .markedProcessing m.id false :: (drainLoop env fuel (k + 1) s2).trace)
            (drainLoop env fuel (k + 1) s2).err
            (drainLoop env fuel (k + 1) s2).fuelOut) ∨
    (∃ m s2, (env k).crash = none ∧ s.paused = false ∧ peek s = some m ∧
        markProcessing m.id (applyCmds (env k).afterPeek s) = (true, s2) ∧
        (runWork (env k) m s2).err = none ∧
        drainLoop env (fuel + 1) k s =
          DrainOutcome.mk
            (drainLoop env fuel (k + 1)
              (markProcessed m.id
                (applyCmds (env k).afterWork (runWork (env k) m s2).state))).state
            (.checkedPaused false :: .peeked (some m) ::
              .markedProcessing m.id true ::
              ((runWork (env k) m s2).evs ++ .markedProcessed m.id ::
                (drainLoop env fuel (k + 1)
                  (markProcessed m.id
                    (applyCmds (env k).afterWork (runWork (env k) m s2).state))).trace))
            (drainLoop env fuel (k + 1)
              (markProcessed m.id
                (applyCmds (env k).afterWork (runWork (env k) m s2).state))).err
            (drainLoop env fuel (k + 1)
              (markProcessed m.id
                (applyCmds (env k).afterWork (runWork (env k) m s2).state))).fuelOut) ∨
    (∃ m s2 err, (env k).crash = none ∧ s.paused = false ∧ peek s = some m ∧
        markProcessing m.id (applyCmds (env k).afterPeek s) = (true, s2) ∧
        (runWork (env k) m s2).err = some err ∧
        drainLoop env (fuel + 1) k s =
          DrainOutcome.mk
            (markFailed m.id err
              (applyCmds (env k).afterWork (runWork (env k) m s2).state))
            (.checkedPaused false :: .peeked (some m) ::
              .markedProcessing m.id true ::
              ((runWork (env k) m s2).evs ++ [.markedFailed m.id err]))
            none false) := by
  have hd : drainLoop env (fuel + 1) k s = drainLoop env (fuel + 1) k s := rfl
  conv_rhs at hd => rw [drainLoop]
  split at hd
  · rename_i msg hcr
    exact Or.inl ⟨msg, hcr, hd⟩
  · rename_i hcr
    split at hd
    · rename_i hp
      exact Or.inr (Or.inl ⟨hcr, hp, hd⟩)
    · rename_i hp
      rw [Bool.not_eq_true] at hp
      split at hd
      · rename_i hpk
        exact Or.inr (Or.inr (Or.inl ⟨hcr, hp, hpk, hd⟩))
      · rename_i m hpk
        dsimp only [] at hd
        split at hd
        · rename_i s2 hmp
          exact Or.inr (Or.inr (Or.inr (Or.inl ⟨m, s2, hcr, hp, hpk, hmp, hd⟩)))
        · rename_i s2 hmp
          split at hd
          · rename_i herr
            exact Or.inr (Or.inr (Or.inr (Or.inr (Or.inl
              ⟨m, s2, hcr, hp, hpk, hmp, herr, hd⟩))))
          · rename_i err herr
            exact Or.inr (Or.inr (Or.inr (Or.inr (Or.inr
              ⟨m, s2, err, hcr, hp, hpk, hmp, herr, hd⟩))))

/-- The processing protocol of the drain loop, stated over traces, from the
claim's words: repeat { if paused, stop; peek, stop if none; markProcessing
— on failure re-peek and continue with the next iteration without
processing that message; perform the unit of work; markProcessed on
success, or markFailed and stop on error }. -/
inductive DrainProtocol : List DrainEvent → Prop where
  | stopPaused : DrainProtocol [.checkedPaused true]
  | stopEmpty : DrainProtocol [.checkedPaused false, .peeked none]
  | skip (m : QueuedMessage) (rest : List DrainEvent) : DrainProtocol rest →
      DrainProtocol (.checkedPaused false :: .peeked (some m) ::
        .markedProcessing m.id false :: rest)
  | stepOk (m : QueuedMessage) (ws rest : List DrainEvent) :
      (∀ ev ∈ ws, isWorkEvent ev = true) → DrainProtocol rest →
      DrainProtocol (.checkedPaused false :: .peeked (some m) ::
        .markedProcessing m.id true :: (ws ++ .markedProcessed m.id :: rest))
  | stepFail (m : QueuedMessage) (ws : List DrainEvent) (err : String) :
      (∀ ev ∈ ws, isWorkEvent ev = true) →
      DrainProtocol (.checkedPaused false :: .peeked (some m) ::
        .markedProcessing m.id true :: (ws ++ [.markedFailed m.id err]))

lemma drainLoop_protocol (env : Nat → IterEnv) (hcrash : ∀ j, (env j).crash = none) :
    ∀ fuel k s, (drainLoop env fuel k s).fuelOut = false →
      DrainProtocol (drainLoop env fuel k s).trace := by
  intro fuel
  induction fuel with
  | zero => intro k s h; simp [drainLoop] at h
  | succ fuel ih =>
    intro k s h
    rcases drainLoop_succ_cases env fuel k s with
      ⟨msg, hcr, hd⟩ | ⟨hcr, hp, hd⟩ | ⟨hcr, hp, hpk, hd⟩ |
      ⟨m, s2, hcr, hp, hpk, hmp, hd⟩ | ⟨m, s2, hcr, hp, hpk, hmp, herr, hd⟩ |
      ⟨m, s2, err, hcr, hp, hpk, hmp, herr, hd⟩
    · rw [hcrash k] at hcr; cases hcr
    · rw [hd]; exact .stopPaused
    · rw [hd]; exact .stopEmpty
    · rw [hd] at h ⊢
      exact .skip m _ (ih (k + 1) s2 h)
    · rw [hd] at h ⊢
      exact .stepOk m _ _ (runWork_evs_work (env k) m s2) (ih (k + 1) _ h)
    · rw [hd]
      exact .stepFail m _ err (runWork_evs_work (env k) m s2)

/-- C1: whenever `processQueuedMessages` acquires the conversation's
processing lock and no exception is injected, its trace follows the
processing protocol: repeat { stop if paused; peek, stop if none;
markProcessing — on failure continue with the next iteration without
processing the message; perform the unit of work; markProcessed on success,
or markFailed and stop on error }. -/
theorem processQueuedMessages_follows_protocol (env : Nat → IterEnv) (fuel : Nat)
    (s : ConvState) (hlock : s.locked = false)
    (hcrash : ∀ j, (env j).crash = none)
    (hfuel : (processQueuedMessages env fuel s).fuelOut = false) :
    DrainProtocol (processQueuedMessages env fuel s).trace := by
  unfold processQueuedMessages at hfuel ⊢
  rcases hla : tryAcquireProcessingLock s with ⟨ok, s1⟩
  rw [hla] at hfuel
  rcases ok
  · unfold tryAcquireProcessingLock at hla
    rw [if_neg (by simp [hlock])] at hla
    simp at hla
  · exact drainLoop_protocol env hcrash fuel 0 s1 hfuel

/-- Witness for C1 on a concrete queue with one pending message and a
benign environment: the produced trace satisfies the protocol. -/
theorem processQueuedMessages_follows_protocol_witness :
    DrainProtocol (processQueuedMessages (fun _ => IterEnv.quiet) 2
      (ConvState.mk [QueuedMessage.mk 0 "hi" .pending false none]
        false false [] 1)).trace :=
  processQueuedMessages_follows_protocol (fun _ => IterEnv.quiet) 2
    (ConvState.mk [QueuedMessage.mk 0 "hi" .pending false none] false false [] 1)
    rfl (fun _ => rfl) rfl

/-! ## C5 — a queued message enters the history at most once -/

/-- `peek` only returns a message of the queue. -/
lemma peek_mem {s : ConvState} {m : QueuedMessage} (h : peek s = some m) :
    m ∈ s.queue := by
  unfold peek at h
  rcases hq : s.queue with _ | ⟨m0, rest⟩ <;> rw [hq] at h
  · cases h
  · dsimp only [] at h
    by_cases hst : m0.status = .pending
    · rw [if_pos hst] at h
      cases h
      exact List.mem_cons_self _ _
    · rw [if_neg hst] at h
      cases h

/-- How one step of the system evolves a queue: every retained message
stems from a message with the same id whose `addedToHistory` flag can only
have been raised, never cleared; messages that are new carry ids at or
above the old id counter and below the new one; the id counter never
decreases. -/
def queueEvolves (s s' : ConvState) : Prop :=
  (∀ m ∈ s'.queue,
      (∃ m0 ∈ s.queue, m0.id = m.id ∧
        (m0.addedToHistory = true → m.addedToHistory = true)) ∨
      (s.nextId ≤ m.id ∧ m.id < s'.nextId)) ∧
  s.nextId ≤ s'.nextId

lemma queueEvolves_refl (s : ConvState) : queueEvolves s s :=
  ⟨fun m hm => Or.inl ⟨m, hm, rfl, fun h => h⟩, le_refl _⟩

lemma queueEvolves_trans {s1 s2 s3 : ConvState}
    (h12 : queueEvolves s1 s2) (h23 : queueEvolves s2 s3) : queueEvolves s1 s3 := by
  obtain ⟨hm12, hn12⟩ := h12
  obtain ⟨hm23, hn23⟩ := h23
  refine ⟨?_, le_trans hn12 hn23⟩
  intro m hm
  rcases hm23 m hm with ⟨m2, hm2, hid2, hfl2⟩ | ⟨hlo, hhi⟩
  · rcases hm12 m2 hm2 with ⟨m1, hm1, hid1, hfl1⟩ | ⟨hlo1, hhi1⟩
    · exact Or.inl ⟨m1, hm1, hid1.trans hid2, fun h => hfl2 (hfl1 h)⟩
    · exact Or.inr ⟨le_of_le_of_eq hlo1 hid2, lt_of_lt_of_le (hid2 ▸ hhi1) hn23⟩
  · exact Or.inr ⟨le_trans hn12 hlo, hhi⟩

lemma queueEvolves_map (s : ConvState) (f : QueuedMessage → QueuedMessage)
    (hid : ∀ m, (f m).id = m.id)
    (hfl : ∀ m, m.addedToHistory = true → (f m).addedToHistory = true) :
    queueEvolves s { s with queue := s.queue.map f } := by
  refine ⟨?_, le_refl _⟩
  intro m hm
  simp only [List.mem_map] at hm
  obtain ⟨m0, hm0, rfl⟩ := hm
  exact Or.inl ⟨m0, hm0, (hid m0).symm, hfl m0⟩

lemma queueEvolves_filter (s : ConvState) (p : QueuedMessage → Bool) :
    queueEvolves s { s with queue := s.queue.filter p } := by
  refine ⟨?_, le_refl _⟩
  intro m hm
  exact Or.inl ⟨m, (List.mem_filter.mp hm).1, rfl, fun h => h⟩

lemma queueEvolves_queue_eq {s s' : ConvState} (hq : s'.queue = s.queue)
    (hn : s'.nextId = s.nextId) : queueEvolves s s' := by
  refine ⟨?_, le_of_eq hn.symm⟩
  intro m hm
  rw [hq] at hm
  exact Or.inl ⟨m, hm, rfl, fun h => h⟩

lemma queueEvolves_applyCmd (c : QueueCmd) (s : ConvState) :
    queueEvolves s (applyCmd c s) := by
  rcases c with text | i | i | ids | _ | _
  · refine ⟨?_, Nat.le_succ _⟩
    intro m hm
    simp only [applyCmd, enqueue, List.mem_append, List.mem_singleton] at hm
    rcases hm with hm | hm
    · exact Or.inl ⟨m, hm, rfl, fun h => h⟩
    · subst hm
      exact Or.inr ⟨le_refl _, Nat.lt_succ_self _⟩
  · exact queueEvolves_filter s _
  · show queueEvolves s (resetToPending i s).2
    unfold resetToPending
    split
    · exact queueEvolves_map s _
        (fun m => by by_cases hmi : m.id = i <;> simp [hmi])
        (fun m h => by by_cases hmi : m.id = i <;> simp [hmi, h])
    · exact queueEvolves_refl s
  · refine ⟨?_, le_refl _⟩
    intro m hm
    simp only [applyCmd, List.mem_append] at hm
    rcases hm with hm | hm
    · obtain ⟨j, hj, hfind⟩ := List.mem_filterMap.mp hm
      exact Or.inl ⟨m, List.mem_of_find?_eq_some hfind, rfl, fun h => h⟩
    · exact Or.inl ⟨m, (List.mem_filter.mp hm).1, rfl, fun h => h⟩
  · exact queueEvolves_queue_eq rfl rfl
  · exact queueEvolves_queue_eq rfl rfl

lemma queueEvolves_applyCmds (cs : List QueueCmd) (s : ConvState) :
    queueEvolves s (applyCmds cs s) := by
  induction cs generalizing s with
  | nil => exact queueEvolves_refl s
  | cons c cs ih =>
    exact queueEvolves_trans (queueEvolves_applyCmd c s) (ih (applyCmd c s))

lemma queueEvolves_markProcessing (i : Nat) (s : ConvState) :
    queueEvolves s (markProcessing i s).2 := by
  unfold markProcessing
  split
  · exact queueEvolves_map s _
      (fun m => by by_cases hmi : m.id = i <;> simp [hmi])
      (fun m h => by by_cases hmi : m.id = i <;> simp [hmi, h])
  · exact queueEvolves_refl s

lemma queueEvolves_markProcessed (i : Nat) (s : ConvState) :
    queueEvolves s (markProcessed i s) :=
  queueEvolves_filter s _

lemma queueEvolves_markFailed (i : Nat) (err : String) (s : ConvState) :
    queueEvolves s (markFailed i err s) :=
  queueEvolves_map s _
    (fun m => by by_cases hmi : m.id = i <;> simp [hmi])
    (fun m h => by by_cases hmi : m.id = i <;> simp [hmi, h])

lemma queueEvolves_markAddedToHistory (i : Nat) (s : ConvState) :
    queueEvolves s (markAddedToHistory i s) :=
  queueEvolves_map s _
    (fun m => by by_cases hmi : m.id = i <;> simp [hmi])
    (fun m h => by by_cases hmi : m.id = i <;> simp [hmi, h])

lemma queueEvolves_runWork (e : IterEnv) (m : QueuedMessage) (s : ConvState) :
    queueEvolves s (runWork e m s).state := by
  unfold runWork
  split
  · unfold runWorkTail
    split <;> exact queueEvolves_refl s
  · split
    · exact queueEvolves_refl s
    · exact queueEvolves_refl s
    · unfold runWorkTail
      have h0 : queueEvolves s { s with history := s.history ++ [m.text] } :=
        queueEvolves_queue_eq rfl rfl
      have h1 := queueEvolves_applyCmds e.afterAdd
        { s with history := s.history ++ [m.text] }
      have h2 := queueEvolves_markAddedToHistory m.id
        (applyCmds e.afterAdd { s with history := s.history ++ [m.text] })
      have hchain := queueEvolves_trans h0 (queueEvolves_trans h1 h2)
      split <;> exact hchain

/-- All retained copies of message id `i` have their `addedToHistory` flag
set, and `i` is below the id counter (so `enqueue` can never recreate
id `i`). -/
def FlagSet (i : Nat) (s : ConvState) : Prop :=
  (∀ m ∈ s.queue, m.id = i → m.addedToHistory = true) ∧ i < s.nextId

/-- Every queued message id is below the id counter. -/
def IdsBounded (s : ConvState) : Prop := ∀ m ∈ s.queue, m.id < s.nextId

lemma FlagSet_of_evolves {i : Nat} {s s' : ConvState} (h : FlagSet i s)
    (he : queueEvolves s s') : FlagSet i s' := by
  obtain ⟨hall, hlt⟩ := h
  obtain ⟨hm, hn⟩ := he
  refine ⟨?_, lt_of_lt_of_le hlt hn⟩
  intro m hmem hid
  rcases hm m hmem with ⟨m0, hm0, hid0, hfl0⟩ | ⟨hlo, _⟩
  · exact hfl0 (hall m0 hm0 (hid0.trans hid))
  · omega

lemma IdsBounded_of_evolves {s s' : ConvState} (h : IdsBounded s)
    (he : queueEvolves s s') : IdsBounded s' := by
  obtain ⟨hm, hn⟩ := he
  intro m hmem
  rcases hm m hmem with ⟨m0, hm0, hid0, _⟩ | ⟨_, hhi⟩
  · calc m.id = m0.id := hid0.symm
      _ < s.nextId := h m0 hm0
      _ ≤ s'.nextId := hn
  · exact hhi

lemma countHistoryAdd_reviveEvs (e : IterEnv) (i : Nat) :
    countHistoryAdd i (reviveEvs e) = 0 := by
  unfold reviveEvs
  rcases e.foundSession with _ | fid
  · rfl
  · rcases e.reviveOk <;> simp [countHistoryAdd, isHistoryAddFor]

lemma runWork_count_le (e : IterEnv) (m : QueuedMessage) (s : ConvState)
    (i : Nat) : countHistoryAdd i (runWork e m s).evs ≤ 1 := by
  unfold runWork runWorkTail
  rcases hfl : m.addedToHistory
  · rcases hadd : e.addResult with err | b
    · simp [countHistoryAdd]
    · rcases b
      · simp [countHistoryAdd]
      · rcases hw : e.workResult with err | c <;>
          simp [countHistoryAdd, countHistoryAdd_append, countHistoryAdd_reviveEvs,
            isHistoryAddFor] <;>
          by_cases hid : m.id = i <;>
          simp [hid]
  · rcases hw : e.workResult with err | c <;>
      simp [countHistoryAdd, countHistoryAdd_append, countHistoryAdd_reviveEvs,
        isHistoryAddFor]

lemma runWork_count_zero (e : IterEnv) (m : QueuedMessage) (s : ConvState)
    (i : Nat) (h : m.id = i → m.addedToHistory = true) :
    countHistoryAdd i (runWork e m s).evs = 0 := by
  unfold runWork runWorkTail
  rcases hfl : m.addedToHistory
  · have hid : ¬(m.id = i) := by
      intro hh
      have h2 := h hh
      rw [hfl] at h2
      cases h2
    rcases hadd : e.addResult with err | b
    · simp [countHistoryAdd]
    · rcases b
      · simp [countHistoryAdd]
      · rcases hw : e.workResult with err | c <;>
          simp [countHistoryAdd, countHistoryAdd_append, countHistoryAdd_reviveEvs,
            isHistoryAddFor, hid]
  · rcases hw : e.workResult with err | c <;>
      simp [countHistoryAdd, countHistoryAdd_append, countHistoryAdd_reviveEvs,
        isHistoryAddFor]

lemma runWork_state_eq (e : IterEnv) (m : QueuedMessage) (s : ConvState)
    (hfl : m.addedToHistory = false) (hadd : e.addResult = Except.ok true) :
    (runWork e m s).state =
      markAddedToHistory m.id
        (applyCmds e.afterAdd { s with history := s.history ++ [m.text] }) := by
  unfold runWork runWorkTail
  rw [hfl, hadd]
  rcases e.workResult <;> simp

lemma runWork_err_none_addOk (e : IterEnv) (m : QueuedMessage) (s : ConvState)
    (hfl : m.addedToHistory = false) (h : (runWork e m s).err = none) :
    e.addResult = Except.ok true := by
  unfold runWork runWorkTail at h
  rw [hfl] at h
  rcases hadd : e.addResult with err | b <;> rw [hadd] at h
  · simp at h
  · rcases b
    · simp at h
    · rfl

lemma runWork_flagSet_establish (e : IterEnv) (m : QueuedMessage) (s : ConvState)
    (i : Nat) (hid : m.id = i) (hfl : m.addedToHistory = false)
    (hadd : e.addResult = Except.ok true) (hlt : i < s.nextId) :
    FlagSet i (runWork e m s).state := by
  rw [runWork_state_eq e m s hfl hadd]
  constructor
  · intro m2 hm2 hid2
    unfold markAddedToHistory at hm2
    simp only [List.mem_map] at hm2
    obtain ⟨m0, hm0, rfl⟩ := hm2
    by_cases h0 : m0.id = m.id
    · simp [h0]
    · rw [if_neg h0] at hid2 ⊢
      exact absurd (hid ▸ hid2) h0
  · have hmono :=
      (queueEvolves_applyCmds e.afterAdd { s with history := s.history ++ [m.text] }).2
    exact lt_of_lt_of_le hlt hmono

lemma drainLoop_countHistoryAdd_zero (env : Nat → IterEnv) (i : Nat) :
    ∀ fuel k s, FlagSet i s →
      countHistoryAdd i (drainLoop env fuel k s).trace = 0 := by
  intro fuel
  induction fuel with
  | zero => intro k s _; rfl
  | succ fuel ih =>
    intro k s hfs
    rcases drainLoop_succ_cases env fuel k s with
      ⟨msg, hcr, hd⟩ | ⟨hcr, hp, hd⟩ | ⟨hcr, hp, hpk, hd⟩ |
      ⟨m, s2, hcr, hp, hpk, hmp, hd⟩ | ⟨m, s2, hcr, hp, hpk, hmp, herr, hd⟩ |
      ⟨m, s2, err, hcr, hp, hpk, hmp, herr, hd⟩
    · rw [hd]; simp [countHistoryAdd, isHistoryAddFor]
    · rw [hd]; simp [countHistoryAdd, isHistoryAddFor]
    · rw [hd]; simp [countHistoryAdd, isHistoryAddFor]
    · have hev1 : queueEvolves s s2 := by
        have h1 := queueEvolves_applyCmds (env k).afterPeek s
        have h2 := queueEvolves_markProcessing m.id (applyCmds (env k).afterPeek s)
        rw [hmp] at h2
        exact queueEvolves_trans h1 h2
      have hz := ih (k + 1) s2 (FlagSet_of_evolves hfs hev1)
      rw [hd]
      simp [countHistoryAdd, isHistoryAddFor, hz]
    · have hev1 : queueEvolves s s2 := by
        have h1 := queueEvolves_applyCmds (env k).afterPeek s
        have h2 := queueEvolves_markProcessing m.id (applyCmds (env k).afterPeek s)
        rw [hmp] at h2
        exact queueEvolves_trans h1 h2
      have hfs2 := FlagSet_of_evolves hfs hev1
      have hwz : countHistoryAdd i (runWork (env k) m s2).evs = 0 :=
        runWork_count_zero (env k) m s2 i (fun hid => hfs.1 m (peek_mem hpk) hid)
      have hev2 : queueEvolves s2 (markProcessed m.id
          (applyCmds (env k).afterWork (runWork (env k) m s2).state)) :=
        queueEvolves_trans (queueEvolves_runWork (env k) m s2)
          (queueEvolves_trans (queueEvolves_applyCmds (env k).afterWork _)
            (queueEvolves_markProcessed m.id _))
      have hz := ih (k + 1) _ (FlagSet_of_evolves hfs2 hev2)
      rw [hd]
      simp [countHistoryAdd, isHistoryAddFor, countHistoryAdd_append, hwz, hz]
    · have hwz : countHistoryAdd i (runWork (env k) m s2).evs = 0 :=
        runWork_count_zero (env k) m s2 i (fun hid => hfs.1 m (peek_mem hpk) hid)
      rw [hd]
      simp [countHistoryAdd, isHistoryAddFor, countHistoryAdd_append, hwz]

lemma drainLoop_countHistoryAdd_le (env : Nat → IterEnv) (i : Nat) :
    ∀ fuel k s, IdsBounded s →
      countHistoryAdd i (drainLoop env fuel k s).trace ≤ 1 := by
  intro fuel
  induction fuel with
  | zero => intro k s _; exact Nat.zero_le 1
  | succ fuel ih =>
    intro k s hb
    rcases drainLoop_succ_cases env fuel k s with
      ⟨msg, hcr, hd⟩ | ⟨hcr, hp, hd⟩ | ⟨hcr, hp, hpk, hd⟩ |
      ⟨m, s2, hcr, hp, hpk, hmp, hd⟩ | ⟨m, s2, hcr, hp, hpk, hmp, herr, hd⟩ |
      ⟨m, s2, err, hcr, hp, hpk, hmp, herr, hd⟩
    · rw [hd]; simp [countHistoryAdd, isHistoryAddFor]
    · rw [hd]; simp [countHistoryAdd, isHistoryAddFor]
    · rw [hd]; simp [countHistoryAdd, isHistoryAddFor]
    · have hev1 : queueEvolves s s2 := by
        have h1 := queueEvolves_applyCmds (env k).afterPeek s
        have h2 := queueEvolves_markProcessing m.id (applyCmds (env k).afterPeek s)
        rw [hmp] at h2
        exact queueEvolves_trans h1 h2
      have hrest := ih (k + 1) s2 (IdsBounded_of_evolves hb hev1)
      rw [hd]
      simp only [countHistoryAdd, isHistoryAddFor, Bool.false_eq_true, if_false]
      omega
    · have hev1 : queueEvolves s s2 := by
        have h1 := queueEvolves_applyCmds (env k).afterPeek s
        have h2 := queueEvolves_markProcessing m.id (applyCmds (env k).afterPeek s)
        rw [hmp] at h2
        exact queueEvolves_trans h1 h2
      have hb2 := IdsBounded_of_evolves hb hev1
      have hev2 : queueEvolves s2 (markProcessed m.id
          (applyCmds (env k).afterWork (runWork (env k) m s2).state)) :=
        queueEvolves_trans (queueEvolves_runWork (env k) m s2)
          (queueEvolves_trans (queueEvolves_applyCmds (env k).afterWork _)
            (queueEvolves_markProcessed m.id _))
      have hws := runWork_count_le (env k) m s2 i
      by_cases hid : m.id = i
      · rcases hfl : m.addedToHistory
        · -- flag false, id = i: the insertion can happen here, afterwards never again
          have haddok := runWork_err_none_addOk (env k) m s2 hfl herr
          have hlt : i < s2.nextId := by
            have hms : m.id < s.nextId := hb m (peek_mem hpk)
            have := hev1.2
            omega
          have hfs3 := runWork_flagSet_establish (env k) m s2 i hid hfl haddok hlt
          have hfs4 : FlagSet i (markProcessed m.id
              (applyCmds (env k).afterWork (runWork (env k) m s2).state)) :=
            FlagSet_of_evolves hfs3
              (queueEvolves_trans (queueEvolves_applyCmds (env k).afterWork _)
                (queueEvolves_markProcessed m.id _))
          have hrest := drainLoop_countHistoryAdd_zero env i fuel (k + 1) _ hfs4
          rw [hd]
          simp only [countHistoryAdd, isHistoryAddFor, countHistoryAdd_append,
            Bool.false_eq_true, if_false]
          omega
        · -- flag already set: no insertion here
          have hws0 := runWork_count_zero (env k) m s2 i (fun _ => hfl)
          have hrest := ih (k + 1) _ (IdsBounded_of_evolves hb2 hev2)
          rw [hd]
          simp only [countHistoryAdd, isHistoryAddFor, countHistoryAdd_append,
            Bool.false_eq_true, if_false]
          omega
      · have hws0 := runWork_count_zero (env k) m s2 i (fun hh => absurd hh hid)
        have hrest := ih (k + 1) _ (IdsBounded_of_evolves hb2 hev2)
        rw [hd]
        simp only [countHistoryAdd, isHistoryAddFor, countHistoryAdd_append,
          Bool.false_eq_true, if_false]
        omega
    · have hws := runWork_count_le (env k) m s2 i
      rw [hd]
      simp only [countHistoryAdd, isHistoryAddFor, countHistoryAdd_append,
        Bool.false_eq_true, if_false]
      omega

/-- C5: a queued message's text is inserted into the conversation history
at most once across all processing attempts of a drain — and never when its
`addedToHistory` flag is already set, so a retry after a failure produces
no duplicate history entry.  Hypotheses: queued ids are below the id
counter (so a fresh enqueue never reuses an id) and pairwise distinct. -/
theorem queued_message_added_to_history_once (env : Nat → IterEnv) (fuel : Nat)
    (s : ConvState) (m : QueuedMessage) (hm : m ∈ s.queue)
    (hb : ∀ m2 ∈ s.queue, m2.id < s.nextId)
    (hnd : (s.queue.map (fun m2 => m2.id)).Nodup) :
    countHistoryAdd m.id (processQueuedMessages env fuel s).trace ≤ 1 ∧
    (m.addedToHistory = true →
      countHistoryAdd m.id (processQueuedMessages env fuel s).trace = 0) := by
  unfold processQueuedMessages
  rcases hla : tryAcquireProcessingLock s with ⟨ok, s1⟩
  rcases ok
  · exact ⟨Nat.zero_le 1, fun _ => rfl⟩
  · have hs1 : s1 = { s with locked := true } := by
      unfold tryAcquireProcessingLock at hla
      split at hla
      · cases hla
      · cases hla; rfl
    subst hs1
    constructor
    · exact drainLoop_countHistoryAdd_le env m.id fuel 0 _ hb
    · intro hflag
      refine drainLoop_countHistoryAdd_zero env m.id fuel 0 _ ⟨?_, hb m hm⟩
      intro m2 hm2 hid2
      have hmm : m2 = m := List.inj_on_of_nodup_map hnd hm2 hm hid2
      rw [hmm, hflag]

/-- Witness for C5 on a concrete queue whose single message is retried
after a failure: with its `addedToHistory` flag already set, the drain
inserts nothing into the history. -/
theorem queued_message_added_to_history_once_witness :
    countHistoryAdd 0 (processQueuedMessages (fun _ => IterEnv.quiet) 3
      (ConvState.mk [QueuedMessage.mk 0 "hi" .pending true none]
        false false ["hi"] 1)).trace = 0 :=
  (queued_message_added_to_history_once (fun _ => IterEnv.quiet) 3
    (ConvState.mk [QueuedMessage.mk 0 "hi" .pending true none] false false ["hi"] 1)
    (QueuedMessage.mk 0 "hi" .pending true none) (by simp) (by simp)
    (by simp)).2 rfl

/-! ## C6 — a failure halts the drain until a human retries or removes -/

lemma getLast?_cons_of_ne_nil {α : Type} (x : α) (l : List α) (h : l ≠ []) :
    (x :: l).getLast? = l.getLast? := by
  rcases l with _ | ⟨y, t⟩
  · exact absurd rfl h
  · exact List.getLast?_cons_cons

lemma getLast?_append_of_ne_nil {α : Type} (l1 l2 : List α) (h : l2 ≠ []) :
    (l1 ++ l2).getLast? = l2.getLast? := by
  induction l1 with
  | nil => rfl
  | cons x t ih =>
    rw [List.cons_append, getLast?_cons_of_ne_nil x (t ++ l2) ?hne, ih]
    case hne =>
      intro hn
      exact h (List.append_eq_nil.mp hn).2

lemma runWork_no_markedFailed (e : IterEnv) (m : QueuedMessage) (s : ConvState)
    (i : Nat) (err : String) :
    DrainEvent.markedFailed i err ∉ (runWork e m s).evs := by
  intro hmem
  have hw := runWork_evs_work e m s _ hmem
  simp [isWorkEvent] at hw

/-- The drain loop and the queue-management commands other than the
explicit reset never turn a message pending: a pending message in the
result was already pending, with the same id. -/
def pendingFrom (s0 s : ConvState) : Prop :=
  ∀ m ∈ s.queue, m.status = .pending →
    ∃ m0 ∈ s0.queue, m0.id = m.id ∧ m0.status = .pending

lemma pendingFrom_refl (s : ConvState) : pendingFrom s s :=
  fun m hm hp => ⟨m, hm, rfl, hp⟩

lemma pendingFrom_trans {s1 s2 s3 : ConvState} (h12 : pendingFrom s1 s2)
    (h23 : pendingFrom s2 s3) : pendingFrom s1 s3 := by
  intro m hm hp
  obtain ⟨m2, hm2, hid2, hp2⟩ := h23 m hm hp
  obtain ⟨m1, hm1, hid1, hp1⟩ := h12 m2 hm2 hp2
  exact ⟨m1, hm1, hid1.trans hid2, hp1⟩

lemma pendingFrom_of_queue_eq {s s' : ConvState} (hq : s'.queue = s.queue) :
    pendingFrom s s' := by
  intro m hm hp
  rw [hq] at hm
  exact ⟨m, hm, rfl, hp⟩

lemma pendingFrom_of_queue_map {s s' : ConvState} (f : QueuedMessage → QueuedMessage)
    (hq : s'.queue = s.queue.map f)
    (hid : ∀ m, (f m).id = m.id)
    (hst : ∀ m, (f m).status = .pending → m.status = .pending) :
    pendingFrom s s' := by
  intro m hm hp
  rw [hq] at hm
  simp only [List.mem_map] at hm
  obtain ⟨m0, hm0, rfl⟩ := hm
  exact ⟨m0, hm0, (hid m0).symm, hst m0 hp⟩

lemma pendingFrom_of_queue_filter {s s' : ConvState} (p : QueuedMessage → Bool)
    (hq : s'.queue = s.queue.filter p) : pendingFrom s s' := by
  intro m hm hp
  rw [hq] at hm
  exact ⟨m, (List.mem_filter.mp hm).1, rfl, hp⟩

lemma pendingFrom_markProcessing (i : Nat) (s : ConvState) :
    pendingFrom s (markProcessing i s).2 := by
  unfold markProcessing
  split
  · refine pendingFrom_of_queue_map _ rfl
      (fun m => by by_cases hmi : m.id = i <;> simp [hmi]) ?_
    intro m hm
    by_cases hmi : m.id = i
    · rw [if_pos hmi] at hm
      simp at hm
    · rw [if_neg hmi] at hm
      exact hm
  · exact pendingFrom_refl s

lemma pendingFrom_markProcessed (i : Nat) (s : ConvState) :
    pendingFrom s (markProcessed i s) :=
  pendingFrom_of_queue_filter _ rfl

lemma pendingFrom_markFailed (i : Nat) (err : String) (s : ConvState) :
    pendingFrom s (markFailed i err s) := by
  refine pendingFrom_of_queue_map _ rfl
    (fun m => by by_cases hmi : m.id = i <;> simp [hmi]) ?_
  intro m hm
  by_cases hmi : m.id = i
  · rw [if_pos hmi] at hm
    simp at hm
  · rw [if_neg hmi] at hm
    exact hm

lemma pendingFrom_markAddedToHistory (i : Nat) (s : ConvState) :
    pendingFrom s (markAddedToHistory i s) := by
  refine pendingFrom_of_queue_map _ rfl
    (fun m => by by_cases hmi : m.id = i <;> simp [hmi]) ?_
  intro m hm
  by_cases hmi : m.id = i <;> simp [hmi] at hm ⊢ <;> exact hm

lemma pendingFrom_runWork (e : IterEnv) (m : QueuedMessage) (s : ConvState)
    (hAdd : e.afterAdd = []) : pendingFrom s (runWork e m s).state := by
  unfold runWork runWorkTail
  split
  · split <;> exact pendingFrom_refl s
  · split
    · exact pendingFrom_refl s
    · exact pendingFrom_refl s
    · rw [hAdd]
      have hstep : pendingFrom s
          (markAddedToHistory m.id
            (applyCmds [] { s with history := s.history ++ [m.text] })) := by
        refine pendingFrom_trans
          (@pendingFrom_of_queue_eq s { s with history := s.history ++ [m.text] } rfl) ?_
        exact pendingFrom_markAddedToHistory m.id _
      split <;> exact hstep

lemma drainLoop_markedFailed_last (env : Nat → IterEnv) :
    ∀ fuel k s i err,
      DrainEvent.markedFailed i err ∈ (drainLoop env fuel k s).trace →
      (drainLoop env fuel k s).trace.getLast? = some (.markedFailed i err) ∧
      (∀ m2 ∈ (drainLoop env fuel k s).state.queue, m2.id = i →
        m2.status = .failed ∧ m2.lastError = some err) := by
  intro fuel
  induction fuel with
  | zero => intro k s i err hmem; simp [drainLoop] at hmem
  | succ fuel ih =>
    intro k s i err hmem
    rcases drainLoop_succ_cases env fuel k s with
      ⟨msg, hcr, hd⟩ | ⟨hcr, hp, hd⟩ | ⟨hcr, hp, hpk, hd⟩ |
      ⟨m, s2, hcr, hp, hpk, hmp, hd⟩ | ⟨m, s2, hcr, hp, hpk, hmp, herr, hd⟩ |
      ⟨m, s2, err0, hcr, hp, hpk, hmp, herr, hd⟩
    · rw [hd] at hmem; simp at hmem
    · rw [hd] at hmem; simp at hmem
    · rw [hd] at hmem; simp at hmem
    · rw [hd] at hmem ⊢
      simp only [List.mem_cons] at hmem
      rcases hmem with h1 | h1 | h1 | h1
      · cases h1
      · cases h1
      · cases h1
      · obtain ⟨hlast, hstate⟩ := ih (k + 1) s2 i err h1
        have hne : (drainLoop env fuel (k + 1) s2).trace ≠ [] :=
          List.ne_nil_of_mem h1
        refine ⟨?_, hstate⟩
        rw [getLast?_cons_of_ne_nil _ _ (List.cons_ne_nil _ _),
          getLast?_cons_of_ne_nil _ _ (List.cons_ne_nil _ _),
          getLast?_cons_of_ne_nil _ _ hne]
        exact hlast
    · rw [hd] at hmem ⊢
      simp only [List.mem_cons, List.mem_append] at hmem
      rcases hmem with h1 | h1 | h1 | h1 | h1 | h1
      · cases h1
      · cases h1
      · cases h1
      · exact absurd h1 (runWork_no_markedFailed (env k) m s2 i err)
      · cases h1
      · obtain ⟨hlast, hstate⟩ := ih (k + 1) _ i err h1
        have hne : (drainLoop env fuel (k + 1)
            (markProcessed m.id
              (applyCmds (env k).afterWork (runWork (env k) m s2).state))).trace ≠ [] :=
          List.ne_nil_of_mem h1
        refine ⟨?_, hstate⟩
        rw [getLast?_cons_of_ne_nil _ _ (List.cons_ne_nil _ _),
          getLast?_cons_of_ne_nil _ _ (List.cons_ne_nil _ _),
          getLast?_cons_of_ne_nil _ _ (by simp),
          getLast?_append_of_ne_nil _ _ (List.cons_ne_nil _ _),
          getLast?_cons_of_ne_nil _ _ hne]
        exact hlast
    · rw [hd] at hmem ⊢
      simp only [List.mem_cons, List.mem_append, List.not_mem_nil, or_false] at hmem
      rcases hmem with h1 | h1 | h1 | h1 | h1
      · cases h1
      · cases h1
      · cases h1
      · exact absurd h1 (runWork_no_markedFailed (env k) m s2 i err)
      · have hie : i = m.id ∧ err = err0 := by
          cases h1
          exact ⟨rfl, rfl⟩
        obtain ⟨rfl, rfl⟩ := hie
        constructor
        · rw [getLast?_cons_of_ne_nil _ _ (List.cons_ne_nil _ _),
            getLast?_cons_of_ne_nil _ _ (List.cons_ne_nil _ _),
            getLast?_cons_of_ne_nil _ _ (by simp),
            getLast?_append_of_ne_nil _ _ (List.cons_ne_nil _ _)]
          rfl
        · intro m2 hm2 hid2
          unfold markFailed at hm2
          simp only [List.mem_map] at hm2
          obtain ⟨m0, hm0, rfl⟩ := hm2
          by_cases h0 : m0.id = m.id
          · simp [h0]
          · rw [if_neg h0] at hid2
            exact absurd hid2 h0

/-- No external interference: the environment injects no queue-management
commands between the loop's steps. -/
def noInterference (env : Nat → IterEnv) : Prop :=
  ∀ k, (env k).afterPeek = [] ∧ (env k).afterAdd = [] ∧ (env k).afterWork = []

lemma drainLoop_pendingFrom (env : Nat → IterEnv) (hni : noInterference env) :
    ∀ fuel k s, pendingFrom s (drainLoop env fuel k s).state := by
  intro fuel
  induction fuel with
  | zero => intro k s; exact pendingFrom_refl s
  | succ fuel ih =>
    intro k s
    rcases drainLoop_succ_cases env fuel k s with
      ⟨msg, hcr, hd⟩ | ⟨hcr, hp, hd⟩ | ⟨hcr, hp, hpk, hd⟩ |
      ⟨m, s2, hcr, hp, hpk, hmp, hd⟩ | ⟨m, s2, hcr, hp, hpk, hmp, herr, hd⟩ |
      ⟨m, s2, err0, hcr, hp, hpk, hmp, herr, hd⟩
    · rw [hd]; exact pendingFrom_refl s
    · rw [hd]; exact pendingFrom_refl s
    · rw [hd]; exact pendingFrom_refl s
    · rw [hd]
      have h2 : pendingFrom s s2 := by
        have hpre := pendingFrom_markProcessing m.id (applyCmds (env k).afterPeek s)
        rw [(hni k).1] at hmp hpre
        rw [hmp] at hpre
        exact hpre
      exact pendingFrom_trans h2 (ih (k + 1) s2)
    · rw [hd]
      have h2 : pendingFrom s s2 := by
        have hpre := pendingFrom_markProcessing m.id (applyCmds (env k).afterPeek s)
        rw [(hni k).1] at hmp hpre
        rw [hmp] at hpre
        exact hpre
      have h3 : pendingFrom s2 (markProcessed m.id
          (applyCmds (env k).afterWork (runWork (env k) m s2).state)) := by
        have hw := pendingFrom_runWork (env k) m s2 (hni k).2.1
        have hmpd := pendingFrom_markProcessed m.id
          (applyCmds (env k).afterWork (runWork (env k) m s2).state)
        refine pendingFrom_trans hw (pendingFrom_trans ?_ hmpd)
        rw [(hni k).2.2]
        exact pendingFrom_refl _
      exact pendingFrom_trans (pendingFrom_trans h2 h3) (ih (k + 1) _)
    · rw [hd]
      have h2 : pendingFrom s s2 := by
        have hpre := pendingFrom_markProcessing m.id (applyCmds (env k).afterPeek s)
        rw [(hni k).1] at hmp hpre
        rw [hmp] at hpre
        exact hpre
      have h3 : pendingFrom s2 (markFailed m.id err0
          (applyCmds (env k).afterWork (runWork (env k) m s2).state)) := by
        have hw := pendingFrom_runWork (env k) m s2 (hni k).2.1
        have hmf := pendingFrom_markFailed m.id err0
          (applyCmds (env k).afterWork (runWork (env k) m s2).state)
        refine pendingFrom_trans hw (pendingFrom_trans ?_ hmf)
        rw [(hni k).2.2]
        exact pendingFrom_refl _
      exact pendingFrom_trans h2 h3

/-- C6: when processing a queued message fails, the drain marks it failed
with the error and stops — `markedFailed` is the last event of the trace
and the message is retained with `failed` status and the error; a failed
message at the head of the queue blocks every later automatic drain (the
queue is untouched and no processing step happens); the drain itself never
turns a message pending; only the explicit `resetToPending` — invoked by
`retryQueuedMessage` — moves a failed message back to pending. -/
theorem drain_failure_halts_until_manual_retry (env : Nat → IterEnv) (fuel : Nat)
    (s : ConvState) :
    (∀ i err,
        DrainEvent.markedFailed i err ∈ (processQueuedMessages env fuel s).trace →
        (processQueuedMessages env fuel s).trace.getLast? =
          some (.markedFailed i err) ∧
        (∀ m2 ∈ (processQueuedMessages env fuel s).state.queue, m2.id = i →
          m2.status = .failed ∧ m2.lastError = some err)) ∧
    (∀ m0 rest, s.queue = m0 :: rest → m0.status = .failed →
        (processQueuedMessages env fuel s).state.queue = s.queue ∧
        (∀ ev ∈ (processQueuedMessages env fuel s).trace,
          isProcessingEvent ev = false)) ∧
    (noInterference env →
        ∀ m2 ∈ (processQueuedMessages env fuel s).state.queue, m2.status = .pending →
          ∃ m0 ∈ s.queue, m0.id = m2.id ∧ m0.status = .pending) ∧
    (∀ q i, ((resetToPending i q).1 = true ↔
        ∃ m2 ∈ q.queue, m2.id = i ∧ m2.status = .failed) ∧
      (∀ m2 ∈ (resetToPending i q).2.queue, m2.id = i →
        (resetToPending i q).1 = true → m2.status = .pending)) ∧
    (∀ cid messageId sessions q,
        (retryQueuedMessage cid messageId sessions q).queue =
          (resetToPending messageId q).2 ∧
        (retryQueuedMessage cid messageId sessions q).returned =
          (resetToPending messageId q).1) := by
  refine ⟨?_, ?_, ?_, ?_, ?_⟩
  · intro i err hmem
    unfold processQueuedMessages at hmem ⊢
    rcases hla : tryAcquireProcessingLock s with ⟨ok, s1⟩
    rw [hla] at hmem
    rcases ok
    · simp at hmem
    · exact drainLoop_markedFailed_last env fuel 0 s1 i err hmem
  · intro m0 rest hq hf
    unfold processQueuedMessages
    rcases hla : tryAcquireProcessingLock s with ⟨ok, s1⟩
    have hs1 : ok = false ∧ s1 = s ∨ ok = true ∧ s1 = { s with locked := true } := by
      unfold tryAcquireProcessingLock at hla
      split at hla
      · cases hla; exact Or.inl ⟨rfl, rfl⟩
      · cases hla; exact Or.inr ⟨rfl, rfl⟩
    rcases ok
    · rcases hs1 with ⟨-, rfl⟩ | ⟨h1, -⟩
      · exact ⟨rfl, by intro ev hev; simp at hev⟩
      · cases h1
    · rcases hs1 with ⟨h1, -⟩ | ⟨-, rfl⟩
      · cases h1
      · dsimp only []
        have hq1 : ({ s with locked := true } : ConvState).queue = m0 :: rest := hq
        have hpk1 : peek { s with locked := true } = none := by
          unfold peek
          rw [hq1]
          dsimp only []
          rw [hf]
          simp
        cases fuel with
        | zero =>
          refine ⟨rfl, ?_⟩
          intro ev hev
          simp [drainLoop] at hev
        | succ fuel =>
          rcases drainLoop_succ_cases env fuel 0 { s with locked := true } with
            ⟨msg, hcr, hd⟩ | ⟨hcr, hp, hd⟩ | ⟨hcr, hp, hpk, hd⟩ |
            ⟨m, s2, hcr, hp, hpk, hmp, hd⟩ | ⟨m, s2, hcr, hp, hpk, hmp, herr, hd⟩ |
            ⟨m, s2, err0, hcr, hp, hpk, hmp, herr, hd⟩
          · rw [hd]
            exact ⟨rfl, by intro ev hev; simp at hev; subst hev; rfl⟩
          · rw [hd]
            exact ⟨rfl, by intro ev hev; simp at hev; subst hev; rfl⟩
          · rw [hd]
            refine ⟨rfl, ?_⟩
            intro ev hev
            simp at hev
            rcases hev with h1 | h1 <;> subst h1 <;> rfl
          · rw [hpk1] at hpk; cases hpk
          · rw [hpk1] at hpk; cases hpk
          · rw [hpk1] at hpk; cases hpk
  · intro hni m2 hm2 hp2
    unfold processQueuedMessages at hm2
    rcases hla : tryAcquireProcessingLock s with ⟨ok, s1⟩
    rw [hla] at hm2
    have hqs : s1.queue = s.queue := by
      unfold tryAcquireProcessingLock at hla
      split at hla
      · cases hla; rfl
      · cases hla; rfl
    rcases ok
    · exact hqs ▸ ⟨m2, hm2, rfl, hp2⟩
    · obtain ⟨m0, hm0, hid0, hp0⟩ :=
        drainLoop_pendingFrom env hni fuel 0 s1 m2 hm2 hp2
      rw [hqs] at hm0
      exact ⟨m0, hm0, hid0, hp0⟩
  · intro q i
    constructor
    · unfold resetToPending
      split
      · rename_i hany
        simp only [List.any_eq_true, Bool.and_eq_true, beq_iff_eq] at hany
        exact ⟨fun _ => hany, fun _ => rfl⟩
      · rename_i hany
        simp only [List.any_eq_true, Bool.and_eq_true, beq_iff_eq] at hany
        constructor
        · intro h; cases h
        · intro hex; exact absurd hex hany
    · intro m2 hm2 hid2 htrue
      unfold resetToPending at hm2 htrue
      split at hm2
      · simp only [List.mem_map] at hm2
        obtain ⟨m0, hm0, rfl⟩ := hm2
        by_cases h0 : m0.id = i
        · simp [h0]
        · rw [if_neg h0] at hid2
          exact absurd hid2 h0
      · rename_i hany
        rw [if_neg hany] at htrue
        simp at htrue
  · intro cid messageId sessions q
    unfold retryQueuedMessage
    rcases hrtp : resetToPending messageId q with ⟨b, q1⟩
    rcases b
    · exact ⟨rfl, rfl⟩
    · rcases hfnd : findSessionByConversationId cid sessions with _ | s0
      · exact ⟨rfl, rfl⟩
      · by_cases hact : s0.status = .active
        · simp [hact]
        · simp [hact]

/-- Witness for C6 at a concrete state: with a failed message at the head
of the queue, a drain attempt leaves the queue — including the pending
message behind it — untouched. -/
theorem drain_failure_halts_until_manual_retry_witness :
    (processQueuedMessages (fun _ => IterEnv.quiet) 3
        (ConvState.mk [QueuedMessage.mk 0 "hi" .failed false (some "boom"),
          QueuedMessage.mk 1 "next" .pending false none]
          false false [] 2)).state.queue =
      [QueuedMessage.mk 0 "hi" .failed false (some "boom"),
       QueuedMessage.mk 1 "next" .pending false none] :=
  ((drain_failure_halts_until_manual_retry (fun _ => IterEnv.quiet) 3
    (ConvState.mk [QueuedMessage.mk 0 "hi" .failed false (some "boom"),
      QueuedMessage.mk 1 "next" .pending false none] false false [] 2)).2.1
    (QueuedMessage.mk 0 "hi" .failed false (some "boom"))
    [QueuedMessage.mk 1 "next" .pending false none] rfl rfl).1

end SpeakMCP
